import Mathlib

/-!
Verification development for the weapon event-sourcing engine
(multi-device event streams, dirty tracking, vector-clock sync).

Shallow embedding notes:
* Rust `HashMap`/`BTreeMap` values are embedded as association lists
  (`List (K × V)`); lookups take the first binding, insertion appends,
  mirroring the map abstraction (key order is irrelevant to lookups).
* `chrono::DateTime<Utc>` is embedded as `Instant := Int` (an abstract
  totally ordered instant).
* Closures returned by `drain_due_notifications` capture exactly a
  listener key and a stream id, so they are embedded as
  `ListenerKey × Stream` pairs; returning the pair without running any
  callback is the embedding of "returns the closures without invoking
  them".
* The files `4-event-stream-store.rs` and `5-stream-store.rs` are listed
  in `data_model/mod.rs` but are not present in the sources; definitions
  taken from the specification instead of the source carry a doc comment
  starting with "Modelled from the spec:".
-/

namespace Weapon

/-- Listener keys are opaque stable handles (`slotmap::DefaultKey`); embedded as `Nat`. -/
abbrev ListenerKey := Nat

/-- `chrono::DateTime<chrono::Utc>`: an abstract totally ordered instant. -/
abbrev Instant := Int

/-- `Timestamped<E>` from `3-timestamped.rs`: wall-clock instant plus the
per-device monotonic index. -/
structure Timestamped (E : Type) where
  timestamp : Instant
  within_device_events_index : Nat
  event : E
deriving DecidableEq

/-- `MetaEvent` from `2-event-type.rs`: engine-reserved, currently an empty enum. -/
inductive MetaEvent : Type

instance : DecidableEq MetaEvent := fun a => nomatch a

/-- `EventType<E>` from `2-event-type.rs`: user-defined or engine-reserved events. -/
inductive EventType (E : Type) : Type where
  | User (e : E)
  | Meta (m : MetaEvent)

instance [DecidableEq E] : DecidableEq (EventType E) := fun a b =>
  match a, b with
  | .User e1, .User e2 =>
    if h : e1 = e2 then isTrue (by rw [h]) else isFalse (by intro hc; injection hc; contradiction)
  | .Meta m, _ => nomatch m
  | _, .Meta m => nomatch m

/-- `DirtyState` from `6-dirty-tracker.rs`. -/
inductive DirtyState : Type where
  | Clean
  | DirtyExcept (k : ListenerKey)
  | DirtyAll
deriving DecidableEq

/-- `DirtyOnDerefMut::mark_dirty` from `6-dirty-tracker.rs` (lines 62-70):
the dirty-state transition performed on every mutable dereference of the
handle, given the optional modifier listener key supplied at acquisition. -/
def mark_dirty (s : DirtyState) (modifier : Option ListenerKey) : DirtyState :=
  match s, modifier with
  | .Clean, some key => .DirtyExcept key
  | .DirtyExcept key1, some key2 => if key1 = key2 then .DirtyExcept key1 else .DirtyAll
  | .Clean, none => .DirtyAll
  | .DirtyExcept _, none => .DirtyAll
  | .DirtyAll, _ => .DirtyAll

/-- `DirtyTracker<Store>` from `6-dirty-tracker.rs`. -/
structure DirtyTracker (Store : Type) where
  store : Store
  dirty_state : DirtyState
  loaded_at_least_once : Bool
deriving DecidableEq

/-- `impl Default for DirtyTracker` from `6-dirty-tracker.rs` (lines 27-37):
a fresh tracker starts `DirtyAll` (creating a stream warrants notifying
everyone) and not yet loaded.  The inner store default is passed explicitly. -/
def DirtyTracker.default (s : Store) : DirtyTracker Store :=
  { store := s, dirty_state := .DirtyAll, loaded_at_least_once := false }

/-! ## Association-list maps (embedding of `HashMap` / `BTreeMap`) -/

/-- First-binding lookup in an association list. -/
def alookup [DecidableEq K] (k : K) : List (K × V) → Option V
  | [] => none
  | (k1, v) :: rest => if k = k1 then some v else alookup k rest

/-- The keys of an association list. -/
def akeys (l : List (K × V)) : List K := l.map Prod.fst

/-- Update the first binding of `k` through `f`, appending a fresh binding
`(k, f none)` when `k` is absent.  This is the embedding of the map
`entry(k)` / `and_modify` / `or_insert` family. -/
def aupdate [DecidableEq K] (k : K) (f : Option V → V) : List (K × V) → List (K × V)
  | [] => [(k, f none)]
  | (k1, v) :: rest => if k = k1 then (k1, f (some v)) :: rest else (k1, v) :: aupdate k f rest

/-- Keep the first occurrence of each element, dropping later duplicates. -/
def dedupFirst [DecidableEq K] : List K → List K :=
  go []
where
  go (seen : List K) : List K → List K
    | [] => []
    | a :: rest => if a ∈ seen then go seen rest else a :: go (a :: seen) rest

/-- Occurrence count of an element in a list (used to state
"exactly one notification per listener"). -/
def ncount [DecidableEq A] (a : A) : List A → Nat
  | [] => 0
  | b :: rest => (if b = a then 1 else 0) + ncount a rest

/-! ## JSON values and the `Event` serialisation contract

`serde_json::Value` is embedded as `Json`; `serde_json::Error` as a
`String` message, so fallible conversions live in `Except String`.
Numbers are embedded as `Int` (every number the engine serialises is an
integer: instants and indices). -/

/-- `serde_json::Value`. -/
inductive Json : Type where
  | null
  | bool (b : Bool)
  | num (n : Int)
  | str (s : String)
  | arr (elems : List Json)
  | obj (fields : List (String × Json))

/-- `Timestamped::map` from `3-timestamped.rs` (lines 17-24). -/
def Timestamped.map (f : E → G) (x : Timestamped E) : Timestamped G :=
  { timestamp := x.timestamp,
    within_device_events_index := x.within_device_events_index,
    event := f x.event }

/-- `Timestamped::transpose` from `3-timestamped.rs` (lines 35-48). -/
def Timestamped.transpose (x : Timestamped (Except Err E)) : Except Err (Timestamped E) :=
  x.event.map fun event =>
    { timestamp := x.timestamp,
      within_device_events_index := x.within_device_events_index,
      event := event }

/-- `EventType::map` from `2-event-type.rs` (lines 18-25). -/
def EventType.map (f : E → G) : EventType E → EventType G
  | .User e => .User (f e)
  | .Meta e => .Meta e

/-- `EventType::transpose` from `2-event-type.rs` (lines 27-34). -/
def EventType.transpose : EventType (Except Err E) → Except Err (EventType E)
  | .User e => e.map EventType.User
  | .Meta e => .ok (.Meta e)

/-- `serde_json::to_value` at type `Timestamped<serde_json::Value>`: the
derived `Serialize` writes the three fields in declaration order.  The
instant serialises to a lossless scalar (the embedding of chrono's
self-inverse instant encoding). -/
def serde_to_value_timestamped (x : Timestamped Json) : Json :=
  .obj [("timestamp", .num x.timestamp),
        ("within_device_events_index", .num (Int.ofNat x.within_device_events_index)),
        ("event", x.event)]

/-- `serde_json::from_value` at type `Timestamped<serde_json::Value>`: the
derived `Deserialize` reads the three fields of an object by name (a
negative index is rejected as `usize` would reject it). -/
def serde_from_value_timestamped (j : Json) : Except String (Timestamped Json) :=
  match j with
  | .obj fields =>
    match alookup "timestamp" fields,
          alookup "within_device_events_index" fields,
          alookup "event" fields with
    | some (.num t), some (.num n), some e =>
      if 0 ≤ n then .ok { timestamp := t, within_device_events_index := n.toNat, event := e }
      else .error "invalid value: negative index"
    | _, _, _ => .error "missing or ill-typed field for Timestamped"
  | _ => .error "expected an object for Timestamped"

/-- `serde_json::to_value` at type `EventType<serde_json::Value>`: the
derived externally tagged enum encoding. -/
def serde_to_value_event_type : EventType Json → Json
  | .User e => .obj [("User", e)]
  | .Meta m => nomatch m

/-- `serde_json::from_value` at type `EventType<serde_json::Value>`: a
single-field object whose tag selects the variant; `MetaEvent` has no
variants, so a `Meta` payload can never deserialise. -/
def serde_from_value_event_type (j : Json) : Except String (EventType Json) :=
  match j with
  | .obj [(tag, v)] =>
    if tag = "User" then .ok (.User v)
    else if tag = "Meta" then .error "unknown variant: MetaEvent has no variants"
    else .error "unknown variant for EventType"
  | _ => .error "expected a single-field object for EventType"

/-- `impl Event for EventType` `to_json` from `2-event-type.rs` (lines 37-40):
serialise the payload first (propagating its error), then `to_value` the
resulting `EventType<Value>`. -/
def EventType.to_json (toE : E → Except String Json) (e : EventType E) :
    Except String Json :=
  ((e.map toE).transpose).map serde_to_value_event_type

/-- `impl Event for EventType` `from_json` from `2-event-type.rs` (lines
42-45): parse the envelope to `EventType<Value>`, then run the payload
parser under `map`/`transpose`. -/
def EventType.from_json (fromE : Json → Except String E) (j : Json) :
    Except String (EventType E) :=
  (serde_from_value_event_type j).bind fun s => (s.map fromE).transpose

/-- `impl Event for Timestamped` `to_json` from `3-timestamped.rs` (lines
51-54). -/
def Timestamped.to_json (toE : E → Except String Json) (x : Timestamped E) :
    Except String Json :=
  ((x.map toE).transpose).map serde_to_value_timestamped

/-- `impl Event for Timestamped` `from_json` from `3-timestamped.rs` (lines
56-59). -/
def Timestamped.from_json (fromE : Json → Except String E) (j : Json) :
    Except String (Timestamped E) :=
  (serde_from_value_timestamped j).bind fun s => (s.map fromE).transpose

/-! ## EventStreamStore (single stream)

The file `4-event-stream-store.rs` is declared in `data_model/mod.rs` but is
absent from the sources, so the definitions of this section are taken from
specification section 4.2. -/

/-- Modelled from the spec: `EventStreamStore` (file `4-event-stream-store.rs`
is missing): the state of a single stream is a mapping from device to the
ordered sequence of timestamped events of that device. -/
abbrev EventStreamStore (D E : Type) : Type := List (D × List (Timestamped E))

instance [DecidableEq D] [DecidableEq E] :
    DecidableEq (DirtyTracker (EventStreamStore D E)) := inferInstance

/-- Modelled from the spec: the default (empty) single-stream store. -/
def EventStreamStore.default : EventStreamStore D E := []

/-- Modelled from the spec: `len_device(device)`, the number of events stored
for one device. -/
def EventStreamStore.len_device [DecidableEq D] (s : EventStreamStore D E) (d : D) : Nat :=
  ((alookup d s).getD []).length

/-- The batch is contiguous in `within_device_events_index`: each event's
index is one more than its predecessor's. -/
def contiguous_list : List (Timestamped E) → Bool
  | [] => true
  | [_] => true
  | a :: b :: rest =>
    b.within_device_events_index == a.within_device_events_index + 1
      && contiguous_list (b :: rest)

/-- The validity rules of specification section 4.2: the batch is contiguous
and its first index equals the expected length `len`.  An empty batch has no
first index, so no batch can witness the first-index rule and the check
fails (this reading is forced by the specification's idempotent-sync
property: accepting empty batches would dirty untouched streams on a
no-op sync). -/
def valid_batch_shape (len : Nat) : List (Timestamped E) → Bool
  | [] => false
  | e :: rest =>
    e.within_device_events_index == len && contiguous_list (e :: rest)

/-- Modelled from the spec: `valid_to_add_events(device, batch)` (file
`4-event-stream-store.rs` is missing): returns the batch if it is
contiguous and starts at the current length for that device, else `None`. -/
def EventStreamStore.valid_to_add_events [DecidableEq D]
    (s : EventStreamStore D E) (d : D) (batch : List (Timestamped E)) :
    Option (List (Timestamped E)) :=
  if valid_batch_shape (s.len_device d) batch then some batch else none

/-- Modelled from the spec: `add_device_events(device, batch)` (file
`4-event-stream-store.rs` is missing): appends the batch to the device's
sequence (precondition: `valid_to_add_events` returned it). -/
def EventStreamStore.add_device_events [DecidableEq D]
    (s : EventStreamStore D E) (d : D) (batch : List (Timestamped E)) :
    EventStreamStore D E :=
  aupdate d (fun old => (old.getD []) ++ batch) s

/-- Modelled from the spec: `num_events_per_device()`. -/
def EventStreamStore.num_events_per_device (s : EventStreamStore D E) : List (D × Nat) :=
  s.map (fun p => (p.1, p.2.length))

/-- All stored events of a stream, tagged with their device. -/
def EventStreamStore.all_pairs (s : EventStreamStore D E) : List (D × Timestamped E) :=
  s.flatMap (fun p => p.2.map (fun e => (p.1, e)))

/-- The merged-iteration order of specification section 4.2: primary key
`timestamp`, tie-break 1 the device's natural order, tie-break 2
`within_device_events_index`. -/
def merge_le [LinearOrder D] (a b : D × Timestamped E) : Prop :=
  a.2.timestamp < b.2.timestamp
    ∨ (a.2.timestamp = b.2.timestamp
        ∧ (a.1 < b.1
            ∨ (a.1 = b.1
                ∧ a.2.within_device_events_index ≤ b.2.within_device_events_index)))

instance [LinearOrder D] : DecidableRel (@merge_le D E _) := fun _ _ => by
  unfold merge_le; infer_instance

/-- The strict version of the merged-iteration order: the key
(timestamp, device, within-device index) strictly increases. -/
def merge_lt [LinearOrder D] (a b : D × Timestamped E) : Prop :=
  a.2.timestamp < b.2.timestamp
    ∨ (a.2.timestamp = b.2.timestamp
        ∧ (a.1 < b.1
            ∨ (a.1 = b.1
                ∧ a.2.within_device_events_index < b.2.within_device_events_index)))

instance [LinearOrder D] : IsTotal (D × Timestamped E) merge_le := ⟨by
  intro a b
  rcases lt_trichotomy a.2.timestamp b.2.timestamp with h | h | h
  · exact Or.inl (Or.inl h)
  · rcases lt_trichotomy a.1 b.1 with h2 | h2 | h2
    · exact Or.inl (Or.inr ⟨h, Or.inl h2⟩)
    · rcases Nat.le_total a.2.within_device_events_index b.2.within_device_events_index
        with h3 | h3
      · exact Or.inl (Or.inr ⟨h, Or.inr ⟨h2, h3⟩⟩)
      · exact Or.inr (Or.inr ⟨h.symm, Or.inr ⟨h2.symm, h3⟩⟩)
    · exact Or.inr (Or.inr ⟨h.symm, Or.inl h2⟩)
  · exact Or.inr (Or.inl h)⟩

instance [LinearOrder D] : IsTrans (D × Timestamped E) merge_le := ⟨by
  intro a b c hab hbc
  rcases hab with h1 | ⟨h1, hab2⟩
  · rcases hbc with h2 | ⟨h2, hbc2⟩
    · exact Or.inl (h1.trans h2)
    · exact Or.inl (lt_of_lt_of_eq h1 h2)
  · rcases hbc with h2 | ⟨h2, hbc2⟩
    · exact Or.inl (h1.trans_lt h2)
    · refine Or.inr ⟨h1.trans h2, ?_⟩
      rcases hab2 with hd1 | ⟨hd1, hi1⟩
      · rcases hbc2 with hd2 | ⟨hd2, hi2⟩
        · exact Or.inl (hd1.trans hd2)
        · exact Or.inl (lt_of_lt_of_eq hd1 hd2)
      · rcases hbc2 with hd2 | ⟨hd2, hi2⟩
        · exact Or.inl (hd1.trans_lt hd2)
        · exact Or.inr ⟨hd1.trans hd2, hi1.trans hi2⟩⟩

instance [LinearOrder D] : IsAntisymm (D × Timestamped E) merge_lt := ⟨by
  intro a b h1 h2
  exfalso
  rcases h1 with h1 | ⟨h1, h1r⟩ <;> rcases h2 with h2 | ⟨h2, h2r⟩
  · exact absurd (h1.trans h2) (lt_irrefl _)
  · exact absurd h1 (by rw [h2]; exact lt_irrefl _)
  · exact absurd h2 (by rw [h1]; exact lt_irrefl _)
  · rcases h1r with hd1 | ⟨hd1, hi1⟩ <;> rcases h2r with hd2 | ⟨hd2, hi2⟩
    · exact absurd (hd1.trans hd2) (lt_irrefl _)
    · exact absurd hd1 (by rw [hd2]; exact lt_irrefl _)
    · exact absurd hd2 (by rw [hd1]; exact lt_irrefl _)
    · exact absurd (hi1.trans hi2) (lt_irrefl _)⟩

/-- Modelled from the spec: the merged iteration `iter()` (file
`4-event-stream-store.rs` is missing), with its device tags: all stored
events of the stream in the deterministic total order
(timestamp, device, within-device index). -/
def EventStreamStore.iter_tagged [DecidableEq D] [LinearOrder D]
    (s : EventStreamStore D E) : List (D × Timestamped E) :=
  List.insertionSort merge_le s.all_pairs

/-- Modelled from the spec: the merged iteration `iter()` (file
`4-event-stream-store.rs` is missing): yields the events themselves. -/
def EventStreamStore.iter [DecidableEq D] [LinearOrder D]
    (s : EventStreamStore D E) : List (Timestamped E) :=
  s.iter_tagged.map Prod.snd

/-! ## SyncTarget, SyncState, Clock (from `7-event-store.rs`) -/

/-- `SyncTarget` from `7-event-store.rs` (lines 354-361). -/
inductive SyncTarget : Type where
  | Supabase
  | Opfs
deriving DecidableEq

/-- `Clock<Stream, Device>` from `7-event-store.rs` (line 322):
`BTreeMap<Stream, BTreeMap<Device, usize>>` as nested association lists. -/
abbrev Clock (S D : Type) : Type := List (S × List (D × Nat))

/-- `SyncState` from `7-event-store.rs` (lines 390-399). -/
structure SyncState (S D : Type) where
  remote_clock : Clock S D
  last_sync_started : Option Instant
  last_sync_finished : Option Instant
  last_sync_error : Option String
deriving DecidableEq

/-- `impl Default for SyncState` from `7-event-store.rs` (lines 401-410). -/
def SyncState.default : SyncState S D :=
  { remote_clock := [], last_sync_started := none,
    last_sync_finished := none, last_sync_error := none }

/-- Inner loop of `join_clocks`: merge one device map into another by
element-wise max (`and_modify` takes the max, `or_insert` inserts). -/
def join_inner [DecidableEq D] (dm1 dm2 : List (D × Nat)) : List (D × Nat) :=
  dm2.foldl
    (fun acc p =>
      aupdate p.1 (fun old => match old with | some c => max c p.2 | none => p.2) acc)
    dm1

/-- `join_clocks` from `7-event-store.rs` (lines 325-352): merge two clocks
by element-wise max for each (stream, device) pair across both clocks. -/
def join_clocks [DecidableEq S] [DecidableEq D] (clock1 clock2 : Clock S D) : Clock S D :=
  clock2.foldl
    (fun result p => aupdate p.1 (fun old => join_inner (old.getD []) p.2) result)
    clock1

/-! ## EventStore (from `7-event-store.rs`)

The source stores `DirtyTracker<Box<dyn StreamStore<Device>>>` (payload type
erased per stream); the embedding fixes one payload type `E` for the whole
store, which is faithful for every claim here (each claim works with a
single payload type, and the JSON path takes the payload codec as an
explicit argument). -/

/-- `EventStore` from `7-event-store.rs` (lines 12-18). -/
structure EventStore (S D E : Type) where
  streams : List (S × DirtyTracker (EventStreamStore D E))
  listeners : List ListenerKey
  sync_states : List (SyncTarget × SyncState S D)

instance [DecidableEq S] [DecidableEq D] [DecidableEq E] :
    DecidableEq (EventStore S D E) := fun a b =>
  decidable_of_iff
    (a.streams = b.streams ∧ a.listeners = b.listeners ∧ a.sync_states = b.sync_states)
    (by cases a; cases b; simp)

/-- `impl Default for EventStore` from `7-event-store.rs` (lines 20-29). -/
def EventStore.default : EventStore S D E :=
  { streams := [], listeners := [], sync_states := [] }

/-- The events stored for a given (stream, device) pair: empty when the
stream or the device is absent. -/
def EventStore.eventsOf [DecidableEq S] [DecidableEq D]
    (st : EventStore S D E) (s : S) (d : D) : List (Timestamped E) :=
  match alookup s st.streams with
  | some tr => (alookup d tr.store).getD []
  | none => []

/-- `EventStore::get_or_insert_default` from `7-event-store.rs` (lines
138-150), restricted to its effect on the state: inserts a fresh default
tracker (hence `DirtyAll`) when the stream is absent.  The returned handle
is not reified; mutations through it are modelled at each use site. -/
def EventStore.get_or_insert_default [DecidableEq S]
    (st : EventStore S D E) (stream : S) : EventStore S D E :=
  if (alookup stream st.streams).isSome then st
  else { st with
          streams := st.streams ++ [(stream, DirtyTracker.default EventStreamStore.default)] }

/-- `EventStore::add_device_events` from `7-event-store.rs` (lines 207-226):
get-or-insert the stream, validate the batch against the typed store, and
append it through the dirty handle (the mutable dereference fires
`mark_dirty`); an invalid batch is dropped and `0` returned. -/
def EventStore.add_device_events [DecidableEq S] [DecidableEq D]
    (st : EventStore S D E) (stream : S) (device : D)
    (events : List (Timestamped E)) (modifier : Option ListenerKey) :
    Nat × EventStore S D E :=
  let st1 := st.get_or_insert_default stream
  match alookup stream st1.streams with
  | none => (0, st1)
  | some tracker =>
    match tracker.store.valid_to_add_events device events with
    | none => (0, st1)
    | some valid_to_add =>
      let tracker2 : DirtyTracker (EventStreamStore D E) :=
        { store := tracker.store.add_device_events device valid_to_add,
          dirty_state := mark_dirty tracker.dirty_state modifier,
          loaded_at_least_once := tracker.loaded_at_least_once }
      (valid_to_add.length,
       { st1 with streams := aupdate stream (fun _ => tracker2) st1.streams })

/-- Modelled from the spec: `StreamStore::valid_to_add_event_jsons` (file
`5-stream-store.rs` is missing): the same validity rules as
`valid_to_add_events`, applied to raw-JSON-payload events. -/
def EventStreamStore.valid_to_add_event_jsons [DecidableEq D]
    (s : EventStreamStore D E) (d : D) (batch : List (Timestamped Json)) :
    Option (List (Timestamped Json)) :=
  if valid_batch_shape (s.len_device d) batch then some batch else none

/-- Deserialise every event payload, stopping at the first failure. -/
def deserialize_event_jsons (fromE : Json → Except String E) :
    List (Timestamped Json) → Except String (List (Timestamped E))
  | [] => .ok []
  | x :: rest =>
    match (x.map fromE).transpose with
    | .error e => .error e
    | .ok y => (deserialize_event_jsons fromE rest).map (fun ys => y :: ys)

/-- Modelled from the spec: `StreamStore::add_device_event_jsons` (file
`5-stream-store.rs` is missing): deserialises each value via the
application's `Event` impl; on first failure aborts without partial
insertion, otherwise appends and returns the count. -/
def EventStreamStore.add_device_event_jsons [DecidableEq D]
    (fromE : Json → Except String E) (s : EventStreamStore D E) (d : D)
    (batch : List (Timestamped Json)) :
    Except String (Nat × EventStreamStore D E) :=
  match deserialize_event_jsons fromE batch with
  | .error e => .error e
  | .ok evs => .ok (evs.length, s.add_device_events d evs)

/-- `EventStore::add_device_events_jsons` from `7-event-store.rs` (lines
228-252): looks the stream up with `get_mut_raw` (never creating it,
returning `0` when absent), validates, then calls the erased
`add_device_event_jsons` through the dirty handle (so the mutable
dereference fires `mark_dirty` even when deserialisation then fails, in
which case `0` is returned with nothing inserted). -/
def EventStore.add_device_events_jsons [DecidableEq S] [DecidableEq D]
    (fromE : Json → Except String E) (st : EventStore S D E) (stream : S) (device : D)
    (events : List (Timestamped Json)) (modifier : Option ListenerKey) :
    Nat × EventStore S D E :=
  match alookup stream st.streams with
  | none => (0, st)
  | some tracker =>
    match tracker.store.valid_to_add_event_jsons device events with
    | none => (0, st)
    | some valid_to_add =>
      match tracker.store.add_device_event_jsons fromE device valid_to_add with
      | .error _ =>
        (0, { st with
              streams :=
                aupdate stream
                  (fun _ => { tracker with dirty_state := mark_dirty tracker.dirty_state modifier })
                  st.streams })
      | .ok (n, store2) =>
        (n, { st with
              streams :=
                aupdate stream
                  (fun _ =>
                    { store := store2,
                      dirty_state := mark_dirty tracker.dirty_state modifier,
                      loaded_at_least_once := tracker.loaded_at_least_once })
                  st.streams })

/-- `EventStore::add_raw_event` from `7-event-store.rs` (lines 271-289):
wrap the payload with the next index for that device, the current wall
clock (`now` embeds the `chrono::Utc::now()` reading), `EventType::User`,
and append one event via `add_device_event`. -/
def EventStore.add_raw_event [DecidableEq S] [DecidableEq D]
    (st : EventStore S D (EventType E)) (stream : S) (device : D) (payload : E)
    (modifier : Option ListenerKey) (now : Instant) : EventStore S D (EventType E) :=
  let st1 := st.get_or_insert_default stream
  let idx := match alookup stream st1.streams with
             | some tr => tr.store.len_device device
             | none => 0
  let ev : Timestamped (EventType E) :=
    { timestamp := now, within_device_events_index := idx, event := EventType.User payload }
  (st1.add_device_events stream device [ev] modifier).2

/-- `EventStore::vector_clock` from `7-event-store.rs` (lines 69-82): the
per-stream, per-device counts of the in-memory store. -/
def EventStore.vector_clock (st : EventStore S D E) : Clock S D :=
  st.streams.map (fun p => (p.1, p.2.store.num_events_per_device))

/-- `EventStore::update_sync_clock` from `7-event-store.rs` (lines 363-368):
join and record the latest sync clock for a target
(`entry(target).or_default()` then element-wise max join). -/
def EventStore.update_sync_clock [DecidableEq S] [DecidableEq D]
    (st : EventStore S D E) (target : SyncTarget) (new_clock : Clock S D) :
    EventStore S D E :=
  { st with
    sync_states :=
      aupdate target
        (fun old =>
          let state := old.getD SyncState.default
          { state with remote_clock := join_clocks state.remote_clock new_clock })
        st.sync_states }

/-- The notifications scheduled for one dirty stream: one per registered
listener, skipping the excluded one (loop body of `drain_due_notifications`,
`7-event-store.rs` lines 46-54).  Each returned pair is the data captured by
one closure. -/
def notifications_for (listeners : List ListenerKey) (exclude : Option ListenerKey)
    (stream : S) : List (ListenerKey × S) :=
  (listeners.filter (fun k => decide (exclude ≠ some k))).map (fun k => (k, stream))

/-- `EventStore::drain_due_notifications` from `7-event-store.rs` (lines
34-57): walk every stream; skip `Clean` ones; capture the exclude key;
reset the state to `Clean`; schedule one notification per registered
listener except the excluded one.  The closures are returned, not invoked:
the first component is the list of captured (listener, stream) pairs and
the second the store afterwards. -/
def EventStore.drain_due_notifications [DecidableEq S]
    (st : EventStore S D E) : List (ListenerKey × S) × EventStore S D E :=
  (st.streams.flatMap
     (fun p =>
       match p.2.dirty_state with
       | .Clean => []
       | .DirtyExcept key => notifications_for st.listeners (some key) p.1
       | .DirtyAll => notifications_for st.listeners none p.1),
   { st with
     streams := st.streams.map (fun p => (p.1, { p.2 with dirty_state := .Clean })) })

/-! ## The IndexedDB backing store and the sync driver (from `indexeddb.rs`)

The browser database is embedded as the ordered list of rows of the
`events` object store (insertion order = auto-increment key order).  The
engine instance is per user, so the constant `user_id` column is dropped.
The row's `event_index` column always equals `event.within_device_events_index`
(the driver writes it that way at line 123 of `indexeddb.rs`), so it is not
duplicated.  I/O never fails in the embedding, which models the error-free
executions the idempotency claim quantifies over. -/

/-- One row of the `events` object store (`EventRecord`, `indexeddb.rs`
lines 22-29). -/
structure EventRecord (S D E : Type) where
  stream_id : S
  device_id : D
  event : Timestamped E
deriving DecidableEq

/-- The database: all rows in insertion order. -/
abbrev Db (S D E : Type) : Type := List (EventRecord S D E)

/-- The rows of one (stream, device) pair, in insertion order. -/
def dbEvents [DecidableEq S] [DecidableEq D]
    (db : Db S D E) (s : S) (d : D) : List (Timestamped E) :=
  (db.filter (fun r => decide (r.stream_id = s) && decide (r.device_id = d))).map
    (fun r => r.event)

/-- The number of rows of one (stream, device) pair. -/
def db_count [DecidableEq S] [DecidableEq D] (db : Db S D E) (s : S) (d : D) : Nat :=
  (dbEvents db s d).length

/-- The streams appearing in the database, in first-appearance order. -/
def db_streams [DecidableEq S] (db : Db S D E) : List S :=
  dedupFirst (db.map (fun r => r.stream_id))

/-- The devices appearing in one stream's rows, in first-appearance order. -/
def db_devices [DecidableEq S] [DecidableEq D] (db : Db S D E) (s : S) : List D :=
  dedupFirst ((db.filter (fun r => decide (r.stream_id = s))).map (fun r => r.device_id))

/-- `EventDatabase::add_event` (`indexeddb.rs` lines 102-133): append one row. -/
def Db.add_event [DecidableEq S] [DecidableEq D]
    (db : Db S D E) (s : S) (d : D) (e : Timestamped E) : Db S D E :=
  db ++ [{ stream_id := s, device_id := d, event := e }]

/-- `EventDatabase::get_all_stream_events` (`indexeddb.rs` lines 135-183):
group the stream's rows per device, values in row order. -/
def Db.get_all_stream_events [DecidableEq S] [DecidableEq D]
    (db : Db S D E) (s : S) : List (D × List (Timestamped E)) :=
  (db_devices db s).map (fun d => (d, dbEvents db s d))

/-- `EventDatabase::get_clock` (`indexeddb.rs` lines 185-321): per-stream,
per-device row counts, restricted to one stream when a filter is given
(the filtered variant reports the filter stream even when it has no rows).
The contiguity verification (which panics on a gap) is a well-formedness
hypothesis of the theorems, not part of the count. -/
def Db.get_clock [DecidableEq S] [DecidableEq D]
    (db : Db S D E) (only_stream : Option S) : Clock S D :=
  match only_stream with
  | some s => [(s, (db_devices db s).map (fun d => (d, db_count db s d)))]
  | none =>
    (db_streams db).map (fun s => (s, (db_devices db s).map (fun d => (d, db_count db s d))))

/-- `load_from_indexeddb` (`indexeddb.rs` lines 390-420): for each device of
the stream in the database, filter to fresh events (index at least the
current in-memory count) and add them through `add_device_events`. -/
def load_from_indexeddb [DecidableEq S] [DecidableEq D]
    (st : EventStore S D E) (db : Db S D E) (stream : S) (modifier : Option ListenerKey) :
    EventStore S D E :=
  (db.get_all_stream_events stream).foldl
    (fun st2 p =>
      let current_num_events :=
        match alookup stream st2.streams with
        | some tr => tr.store.len_device p.1
        | none => 0
      let fresh_events :=
        p.2.filter (fun e => decide (current_num_events ≤ e.within_device_events_index))
      (st2.add_device_events stream p.1 fresh_events modifier).2)
    st

/-- `save_to_indexeddb` (`indexeddb.rs` lines 422-498): read the database
clock for the stream once, then for each local device push the events whose
index is at least the database count, one row at a time.  Returns the
number of rows written and the new database (the cross-tab broadcast has no
database effect). -/
def save_to_indexeddb [DecidableEq S] [DecidableEq D]
    (st : EventStore S D E) (db : Db S D E) (stream : S) : Nat × Db S D E :=
  match alookup stream st.vector_clock with
  | none => (0, db)
  | some device_events =>
    let device_counts_in_db := (alookup stream (db.get_clock (some stream))).getD []
    device_events.foldl
      (fun acc p =>
        let device_events_in_db := (alookup p.1 device_counts_in_db).getD 0
        let events_to_write : List (Timestamped E) :=
          match alookup stream st.streams with
          | none => []
          | some tr =>
            match alookup p.1 tr.store with
            | none => []
            | some evs =>
              evs.filter (fun e => decide (device_events_in_db ≤ e.within_device_events_index))
        (acc.1 + events_to_write.length,
         events_to_write.foldl (fun db2 e => Db.add_event db2 stream p.1 e) acc.2))
      (0, db)

/-- `sync_with_indexeddb_inner` (`indexeddb.rs` lines 352-388): load fresh
events for every stream of the database clock (or the one requested
stream), save every in-memory stream (or the one requested stream), then
re-read the database clock and record it via `update_sync_clock`.  Returns
the state, the database, and the number of rows written during the save
phase. -/
def sync_with_indexeddb_inner [DecidableEq S] [DecidableEq D]
    (st : EventStore S D E) (db : Db S D E) (stream_id_to_sync : Option S)
    (modifier : Option ListenerKey) :
    EventStore S D E × Db S D E × Nat :=
  let load_streams : List S :=
    match stream_id_to_sync with
    | some s => [s]
    | none => akeys (db.get_clock none)
  let st1 := load_streams.foldl (fun acc s => load_from_indexeddb acc db s modifier) st
  let save_streams : List S :=
    match stream_id_to_sync with
    | some s => [s]
    | none => akeys st1.streams
  let saved :=
    save_streams.foldl
      (fun acc s =>
        let r := save_to_indexeddb st1 acc.2 s
        (acc.1 + r.1, r.2))
      (0, db)
  let final_clock := saved.2.get_clock stream_id_to_sync
  (st1.update_sync_clock SyncTarget.Opfs final_clock, saved.2, saved.1)

/-- One step of the `load_from_indexeddb` device loop, as a named function
(definitionally equal to the fold body above). -/
def load_step [DecidableEq S] [DecidableEq D] (stream : S) (modifier : Option ListenerKey)
    (st2 : EventStore S D E) (p : D × List (Timestamped E)) : EventStore S D E :=
  let current_num_events :=
    match alookup stream st2.streams with
    | some tr => tr.store.len_device p.1
    | none => 0
  let fresh_events :=
    p.2.filter (fun e => decide (current_num_events ≤ e.within_device_events_index))
  (st2.add_device_events stream p.1 fresh_events modifier).2

/-- The rows one `save_to_indexeddb` device step writes: the device's
in-memory events whose index is at least the database count `c`. -/
def events_to_write_def [DecidableEq S] [DecidableEq D]
    (st : EventStore S D E) (stream : S) (d : D) (c : Nat) : List (Timestamped E) :=
  match alookup stream st.streams with
  | none => []
  | some tr =>
    match alookup d tr.store with
    | none => []
    | some evs =>
      evs.filter (fun e => decide (c ≤ e.within_device_events_index))

/-- One step of the `save_to_indexeddb` device loop, as a named function
(definitionally equal to the fold body above). -/
def save_step [DecidableEq S] [DecidableEq D] (st : EventStore S D E) (stream : S)
    (device_counts_in_db : List (D × Nat)) (acc : Nat × Db S D E) (p : D × Nat) :
    Nat × Db S D E :=
  (acc.1 + (events_to_write_def st stream p.1 ((alookup p.1 device_counts_in_db).getD 0)).length,
   (events_to_write_def st stream p.1 ((alookup p.1 device_counts_in_db).getD 0)).foldl
     (fun db2 e => Db.add_event db2 stream p.1 e) acc.2)

/-! ## Well-formedness invariants -/

/-- The events of one device carry consecutive indices starting at `n`. -/
def indexed_from (n : Nat) : List (Timestamped E) → Prop
  | [] => True
  | e :: rest => e.within_device_events_index = n ∧ indexed_from (n + 1) rest

instance instDecidableIndexedFrom :
    (n : Nat) → (l : List (Timestamped E)) → Decidable (indexed_from n l)
  | _, [] => isTrue trivial
  | n, _ :: rest =>
    @instDecidableAnd _ _ _ (instDecidableIndexedFrom (n + 1) rest)

/-- Invariant of a single-stream store: device keys are distinct and each
device's sequence is indexed contiguously from 0 (specification section 3:
indices form a contiguous range from 0). -/
def wf_stream_store (s : EventStreamStore D E) : Prop :=
  (akeys s).Nodup ∧ ∀ p ∈ s, indexed_from 0 p.2

/-- Invariant of the whole store: stream keys are distinct and each stream
satisfies the single-stream invariant. -/
def wf_event_store (st : EventStore S D E) : Prop :=
  (akeys st.streams).Nodup ∧ ∀ p ∈ st.streams, wf_stream_store p.2.store

/-- Invariant of the database (the contiguity the backends MUST verify,
specification section 4.6): for every (stream, device) pair the rows in
insertion order carry indices 0, 1, 2, …. -/
def wf_db [DecidableEq S] [DecidableEq D] (db : Db S D E) : Prop :=
  ∀ s d, indexed_from 0 (dbEvents db s d)

/-- The store and the database agree: both are well formed, every
(stream, device) pair holds the same number of events on both sides, and
the recorded Opfs sync clock already absorbs the database clock.  This is
the state in which a sync is a no-op. -/
def synced [DecidableEq S] [DecidableEq D] (st : EventStore S D E) (db : Db S D E) : Prop :=
  wf_event_store st ∧ wf_db db
  ∧ (∀ s d, db_count db s d = (st.eventsOf s d).length)
  ∧ (match alookup SyncTarget.Opfs st.sync_states with
     | some e => join_clocks e.remote_clock (db.get_clock none) = e.remote_clock
     | none => False)

/-- The entry of a clock at a (stream, device) pair. -/
def clock_lookup [DecidableEq S] [DecidableEq D]
    (c : Clock S D) (s : S) (d : D) : Option Nat :=
  (alookup s c).bind (alookup d)

/-- A clock as a `BTreeMap` of `BTreeMap`s has distinct keys at both levels. -/
def wf_clock (c : Clock S D) : Prop :=
  (akeys c).Nodup ∧ ∀ p ∈ c, (akeys p.2).Nodup

/-- Written from the specification's words for the monotone-clock property
(to be compared with the behaviour of the source's `join_clocks`): the
element-wise maximum of two clocks over every (stream, device) pair
present in either clock. -/
def spec_elementwise_max [DecidableEq S] [DecidableEq D]
    (c1 c2 : Clock S D) (s : S) (d : D) : Option Nat :=
  match clock_lookup c1 s d, clock_lookup c2 s d with
  | some a, some b => some (max a b)
  | some a, none => some a
  | none, some b => some b
  | none, none => none

/-- A concrete store used by witnesses: two listeners and three streams,
one in each dirty state. -/
def c3_example : EventStore Nat Nat Nat :=
  { streams :=
      [(0, { store := [], dirty_state := .Clean, loaded_at_least_once := false }),
       (1, { store := [], dirty_state := .DirtyExcept 3, loaded_at_least_once := false }),
       (2, { store := [], dirty_state := .DirtyAll, loaded_at_least_once := false })],
    listeners := [3, 4],
    sync_states := [] }

/-- Concrete single-stream stores for the C1 witness: the same per-device
sequences inserted in different orders. -/
def c1_example_a : EventStreamStore Nat Nat :=
  [(0, [{ timestamp := 5, within_device_events_index := 0, event := 7 }]),
   (1, [{ timestamp := 3, within_device_events_index := 0, event := 8 }])]

/-- The same per-device sequences as `c1_example_a`, entries reversed. -/
def c1_example_b : EventStreamStore Nat Nat :=
  [(1, [{ timestamp := 3, within_device_events_index := 0, event := 8 }]),
   (0, [{ timestamp := 5, within_device_events_index := 0, event := 7 }])]

/-! ## Association-list lemmas -/

theorem alookup_aupdate_self [DecidableEq K] (k : K) (f : Option V → V)
    (l : List (K × V)) : alookup k (aupdate k f l) = some (f (alookup k l)) := by
  induction l with
  | nil => simp [alookup, aupdate]
  | cons p rest ih =>
    obtain ⟨k1, v⟩ := p
    by_cases h : k = k1
    · subst h; simp [alookup, aupdate]
    · simp [alookup, aupdate, h, ih]

theorem alookup_aupdate_ne [DecidableEq K] {k2 k : K} (f : Option V → V)
    (l : List (K × V)) (h : k2 ≠ k) : alookup k2 (aupdate k f l) = alookup k2 l := by
  induction l with
  | nil => simp [alookup, aupdate, h]
  | cons p rest ih =>
    obtain ⟨k1, v⟩ := p
    by_cases h1 : k = k1
    · subst h1; simp [alookup, aupdate, h]
    · by_cases h2 : k2 = k1 <;> simp [alookup, aupdate, h1, h2, ih]

theorem aupdate_id [DecidableEq K] {k : K} {f : Option V → V} {l : List (K × V)} {v : V}
    (hv : alookup k l = some v) (hf : f (some v) = v) : aupdate k f l = l := by
  induction l with
  | nil => simp [alookup] at hv
  | cons p rest ih =>
    obtain ⟨k1, v1⟩ := p
    by_cases h : k = k1
    · subst h
      have hv1 : v1 = v := by simpa [alookup] using hv
      subst hv1
      simp [aupdate, hf]
    · have hv2 : alookup k rest = some v := by simpa [alookup, h] using hv
      simp [aupdate, h, ih hv2]

theorem alookup_append [DecidableEq K] (k : K) (l1 l2 : List (K × V)) :
    alookup k (l1 ++ l2) = (alookup k l1).or (alookup k l2) := by
  induction l1 with
  | nil => simp [alookup]
  | cons p rest ih =>
    obtain ⟨k1, v⟩ := p
    by_cases h : k = k1 <;> simp [alookup, h, ih]

theorem mem_of_alookup_eq_some [DecidableEq K] {k : K} {v : V} {l : List (K × V)}
    (h : alookup k l = some v) : (k, v) ∈ l := by
  induction l with
  | nil => simp [alookup] at h
  | cons p rest ih =>
    obtain ⟨k1, v1⟩ := p
    by_cases hk : k = k1
    · subst hk
      have hv1 : v1 = v := by simpa [alookup] using h
      subst hv1
      exact List.mem_cons_self _ _
    · simp only [alookup, if_neg hk] at h
      exact List.mem_cons_of_mem _ (ih h)

theorem alookup_eq_none_iff [DecidableEq K] (k : K) (l : List (K × V)) :
    alookup k l = none ↔ k ∉ akeys l := by
  induction l with
  | nil => simp [alookup, akeys]
  | cons p rest ih =>
    obtain ⟨k1, v⟩ := p
    by_cases h : k = k1
    · subst h; simp [alookup, akeys]
    · simp [alookup, akeys, h, ih]

theorem alookup_isSome_iff [DecidableEq K] (k : K) (l : List (K × V)) :
    (alookup k l).isSome = true ↔ k ∈ akeys l := by
  cases hl : alookup k l with
  | none =>
    simp only [Option.isSome_none, Bool.false_eq_true, false_iff]
    exact (alookup_eq_none_iff k l).mp hl
  | some v =>
    simp only [Option.isSome_some, true_iff]
    exact List.mem_map.mpr ⟨(k, v), mem_of_alookup_eq_some hl, rfl⟩

theorem akeys_aupdate_mem [DecidableEq K] {k : K} (f : Option V → V) {l : List (K × V)}
    (h : k ∈ akeys l) : akeys (aupdate k f l) = akeys l := by
  induction l with
  | nil => simp [akeys] at h
  | cons p rest ih =>
    obtain ⟨k1, v⟩ := p
    by_cases h1 : k = k1
    · subst h1; simp [aupdate, akeys]
    · simp only [akeys, List.map_cons, List.mem_cons] at h
      rcases h with h | h
      · exact absurd h h1
      · simp only [aupdate, if_neg h1, akeys, List.map_cons, List.cons.injEq, true_and]
        exact ih h

theorem alookup_of_mem_nodup [DecidableEq K] {k : K} {v : V} {l : List (K × V)}
    (hmem : (k, v) ∈ l) (hnd : (akeys l).Nodup) : alookup k l = some v := by
  induction l with
  | nil => simp at hmem
  | cons p rest ih =>
    obtain ⟨k1, v1⟩ := p
    simp only [akeys, List.map_cons, List.nodup_cons] at hnd
    rcases List.mem_cons.mp hmem with h | h
    · obtain ⟨hk, hv⟩ := Prod.mk.injEq k v k1 v1 ▸ h
      subst hk
      subst hv
      simp [alookup]
    · by_cases hk : k = k1
      · subst hk
        exact absurd (List.mem_map.mpr ⟨(k, v), h, rfl⟩) hnd.1
      · simpa [alookup, hk] using ih h hnd.2

theorem mem_dedupFirst_go [DecidableEq K] (seen : List K) (l : List K) (a : K) :
    a ∈ dedupFirst.go seen l ↔ a ∈ l ∧ a ∉ seen := by
  induction l generalizing seen with
  | nil => simp [dedupFirst.go]
  | cons b rest ih =>
    by_cases h : b ∈ seen
    · simp only [dedupFirst.go, if_pos h, ih]
      constructor
      · rintro ⟨hm, hn⟩; exact ⟨List.mem_cons_of_mem _ hm, hn⟩
      · rintro ⟨hm, hn⟩
        rcases List.mem_cons.mp hm with rfl | hm
        · exact absurd h hn
        · exact ⟨hm, hn⟩
    · rw [dedupFirst.go, if_neg h]
      simp only [List.mem_cons, ih]
      constructor
      · rintro (rfl | ⟨hm, hn⟩)
        · exact ⟨Or.inl rfl, h⟩
        · refine ⟨Or.inr hm, fun hs => hn (Or.inr hs)⟩
      · rintro ⟨hm | hm, hn⟩
        · exact Or.inl hm
        · by_cases hb : a = b
          · exact Or.inl hb
          · refine Or.inr ⟨hm, fun hs => ?_⟩
            rcases hs with h1 | h1
            · exact hb h1
            · exact hn h1

theorem mem_dedupFirst [DecidableEq K] (l : List K) (a : K) :
    a ∈ dedupFirst l ↔ a ∈ l := by
  simpa using mem_dedupFirst_go [] l a

theorem nodup_dedupFirst_go [DecidableEq K] (seen : List K) (l : List K) :
    (dedupFirst.go seen l).Nodup := by
  induction l generalizing seen with
  | nil => simp [dedupFirst.go]
  | cons b rest ih =>
    by_cases h : b ∈ seen
    · simpa [dedupFirst.go, if_pos h] using ih seen
    · simp only [dedupFirst.go, if_neg h, List.nodup_cons]
      refine ⟨fun hb => ?_, ih (b :: seen)⟩
      exact ((mem_dedupFirst_go (b :: seen) rest b).mp hb).2 (List.mem_cons_self _ _)

theorem nodup_dedupFirst [DecidableEq K] (l : List K) : (dedupFirst l).Nodup :=
  nodup_dedupFirst_go [] l

/-! ## C2: the dirty-state transition table -/

/-- C2: for every mutation through a dirty handle acquired with optional
modifier key, the dirty state transitions exactly per the table of
specification section 4.4: Clean/Some k becomes DirtyExcept k; Clean/None
becomes DirtyAll; DirtyExcept k is preserved only by the same modifier k;
any other modifier (or none) collapses it to DirtyAll; DirtyAll is
absorbing. -/
theorem dirty_transition_table (k k2 : ListenerKey) (h : k2 ≠ k) :
    mark_dirty .Clean (some k) = .DirtyExcept k
  ∧ mark_dirty .Clean none = .DirtyAll
  ∧ mark_dirty (.DirtyExcept k) (some k) = .DirtyExcept k
  ∧ mark_dirty (.DirtyExcept k) (some k2) = .DirtyAll
  ∧ mark_dirty (.DirtyExcept k) none = .DirtyAll
  ∧ (∀ m, mark_dirty .DirtyAll m = .DirtyAll) := by
  refine ⟨rfl, rfl, by simp [mark_dirty], ?_, rfl, fun m => by cases m <;> rfl⟩
  simp [mark_dirty, Ne.symm h]

/-- Witness for C2 at concrete keys 0 and 1. -/
theorem dirty_transition_table_witness :
    (1 : ListenerKey) ≠ 0
  ∧ (mark_dirty .Clean (some 0) = .DirtyExcept 0
  ∧ mark_dirty .Clean none = .DirtyAll
  ∧ mark_dirty (.DirtyExcept 0) (some 0) = .DirtyExcept 0
  ∧ mark_dirty (.DirtyExcept 0) (some 1) = .DirtyAll
  ∧ mark_dirty (.DirtyExcept 0) none = .DirtyAll
  ∧ (∀ m, mark_dirty .DirtyAll m = .DirtyAll)) :=
  ⟨by decide, dirty_transition_table 0 1 (by decide)⟩

/-! ## C9: the JSON ingest path never creates a stream -/

/-- C9: for a stream id with no entry in the stream map,
`add_device_events_jsons` returns 0 and leaves the entire store unchanged
(in particular it does not create the stream), unlike the typed path. -/
theorem jsons_missing_stream_no_create [DecidableEq S] [DecidableEq D]
    (fromE : Json → Except String E) (st : EventStore S D E) (stream : S) (device : D)
    (events : List (Timestamped Json)) (modifier : Option ListenerKey)
    (habsent : alookup stream st.streams = none) :
    EventStore.add_device_events_jsons fromE st stream device events modifier = (0, st) := by
  unfold EventStore.add_device_events_jsons
  rw [habsent]

/-- Witness for C9 on a concrete store with no streams. -/
theorem jsons_missing_stream_no_create_witness :
    alookup 0 (EventStore.default : EventStore Nat Nat Nat).streams = none
  ∧ EventStore.add_device_events_jsons (fun _ => .error "no") EventStore.default 0 1
      [{ timestamp := 5, within_device_events_index := 0, event := Json.null }] (some 3)
      = (0, (EventStore.default : EventStore Nat Nat Nat)) :=
  ⟨rfl, jsons_missing_stream_no_create _ _ _ _ _ _ rfl⟩

/-! ## C6: invalid batches on an existing stream are dropped -/

/-- C6: for an existing stream, a batch that is non-contiguous or whose
first index differs from the device's current event count makes
`add_device_events` return 0 and leaves the store's state unchanged. -/
theorem invalid_batch_rejected_state_unchanged [DecidableEq S] [DecidableEq D]
    (st : EventStore S D E) (stream : S) (device : D) (e0 : Timestamped E)
    (rest : List (Timestamped E)) (modifier : Option ListenerKey)
    (tr : DirtyTracker (EventStreamStore D E))
    (hexists : alookup stream st.streams = some tr)
    (hbad : e0.within_device_events_index ≠ tr.store.len_device device
            ∨ contiguous_list (e0 :: rest) = false) :
    st.add_device_events stream device (e0 :: rest) modifier = (0, st) := by
  have hsome : (alookup stream st.streams).isSome = true := by rw [hexists]; rfl
  have hins : st.get_or_insert_default stream = st := by
    unfold EventStore.get_or_insert_default
    rw [if_pos hsome]
  have hshape : valid_batch_shape (tr.store.len_device device) (e0 :: rest) = false := by
    unfold valid_batch_shape
    rcases hbad with hbad | hbad
    · simp [hbad]
    · simp [hbad]
  have hvalid : tr.store.valid_to_add_events device (e0 :: rest) = none := by
    unfold EventStreamStore.valid_to_add_events
    rw [hshape]
    rfl
  unfold EventStore.add_device_events
  rw [hins]
  simp only [hexists, hvalid]

/-- Witness for C6: a store holding two events for the device, offered the
gapped batch with indices [3, 4]. -/
theorem invalid_batch_rejected_state_unchanged_witness :
    (alookup 0
       ({ streams :=
            [(0, { store := [(1, [{ timestamp := 1, within_device_events_index := 0,
                                    event := (7 : Nat) },
                                  { timestamp := 2, within_device_events_index := 1,
                                    event := 8 }])],
                   dirty_state := .Clean, loaded_at_least_once := true })],
          listeners := [], sync_states := [] } : EventStore Nat Nat Nat).streams
      = some { store := [(1, [{ timestamp := 1, within_device_events_index := 0, event := 7 },
                              { timestamp := 2, within_device_events_index := 1, event := 8 }])],
               dirty_state := .Clean, loaded_at_least_once := true })
  ∧ ((3 : Nat) ≠
       EventStreamStore.len_device
         [(1, [{ timestamp := 1, within_device_events_index := 0, event := (7 : Nat) },
               { timestamp := 2, within_device_events_index := 1, event := 8 }])] 1
     ∨ contiguous_list
         [{ timestamp := 9, within_device_events_index := 3, event := (5 : Nat) },
          { timestamp := 9, within_device_events_index := 4, event := 6 }] = false)
  ∧ EventStore.add_device_events
      { streams :=
          [(0, { store := [(1, [{ timestamp := 1, within_device_events_index := 0,
                                  event := (7 : Nat) },
                                { timestamp := 2, within_device_events_index := 1,
                                  event := 8 }])],
                 dirty_state := .Clean, loaded_at_least_once := true })],
        listeners := [], sync_states := [] } 0 1
      [{ timestamp := 9, within_device_events_index := 3, event := 5 },
       { timestamp := 9, within_device_events_index := 4, event := 6 }] none
      = (0, { streams :=
                [(0, { store := [(1, [{ timestamp := 1, within_device_events_index := 0,
                                        event := 7 },
                                      { timestamp := 2, within_device_events_index := 1,
                                        event := 8 }])],
                       dirty_state := .Clean, loaded_at_least_once := true })],
              listeners := [], sync_states := [] }) :=
  ⟨rfl, by decide,
   invalid_batch_rejected_state_unchanged _ _ _ _ _ _ _ rfl (by decide)⟩

/-! ## get-or-insert and eventsOf lemmas -/

theorem goi_present [DecidableEq S] {st : EventStore S D E} {stream : S}
    (h : (alookup stream st.streams).isSome = true) :
    st.get_or_insert_default stream = st := by
  unfold EventStore.get_or_insert_default
  rw [if_pos h]

theorem goi_absent [DecidableEq S] {st : EventStore S D E} {stream : S}
    (h : alookup stream st.streams = none) :
    st.get_or_insert_default stream
      = { st with
          streams := st.streams ++ [(stream, DirtyTracker.default EventStreamStore.default)] } := by
  unfold EventStore.get_or_insert_default
  rw [h]
  rfl

theorem alookup_goi_self [DecidableEq S] [DecidableEq D] (st : EventStore S D E) (stream : S) :
    ∃ tr1, alookup stream (st.get_or_insert_default stream).streams = some tr1
      ∧ ∀ d, (alookup d tr1.store).getD [] = st.eventsOf stream d := by
  cases hl : alookup stream st.streams with
  | some tr =>
    refine ⟨tr, ?_, fun d => ?_⟩
    · rw [goi_present (by rw [hl]; rfl), hl]
    · unfold EventStore.eventsOf
      rw [hl]
  | none =>
    refine ⟨DirtyTracker.default EventStreamStore.default, ?_, fun d => ?_⟩
    · rw [goi_absent hl]
      simp only [alookup_append, hl, Option.or]
      simp [alookup]
    · unfold EventStore.eventsOf
      rw [hl]
      simp [DirtyTracker.default, EventStreamStore.default, alookup]

theorem eventsOf_of_alookup [DecidableEq S] [DecidableEq D] {st : EventStore S D E} {s : S}
    {tr : DirtyTracker (EventStreamStore D E)}
    (h : alookup s st.streams = some tr) (d : D) :
    st.eventsOf s d = (alookup d tr.store).getD [] := by
  unfold EventStore.eventsOf
  rw [h]

theorem eventsOf_goi [DecidableEq S] [DecidableEq D]
    (st : EventStore S D E) (stream : S) (s2 : S) (d2 : D) :
    (st.get_or_insert_default stream).eventsOf s2 d2 = st.eventsOf s2 d2 := by
  cases hl : alookup stream st.streams with
  | some tr => rw [goi_present (by rw [hl]; rfl)]
  | none =>
    rw [goi_absent hl]
    unfold EventStore.eventsOf
    by_cases h2 : s2 = stream
    · subst h2
      rw [hl]
      simp only [alookup_append, hl, Option.or]
      simp [alookup, DirtyTracker.default, EventStreamStore.default]
    · simp only [alookup_append]
      have : alookup s2 [(stream, DirtyTracker.default (EventStreamStore.default : EventStreamStore D E))] = none := by
        simp [alookup, h2]
      rw [this]
      cases alookup s2 st.streams <;> rfl

/-! ## C10: a rejected typed batch still creates the stream, DirtyAll -/

/-- C10: the typed `add_device_events` on a missing stream with a rejected
batch returns 0 yet creates the stream: afterwards the stream exists with
zero events and dirty state `DirtyAll` regardless of the modifier, so the
next drain delivers the stream to every registered listener, the modifier
included. -/
theorem typed_invalid_batch_creates_stream_dirty_all [DecidableEq S] [DecidableEq D]
    (st : EventStore S D E) (stream : S) (device : D) (batch : List (Timestamped E))
    (modifier : Option ListenerKey)
    (habsent : alookup stream st.streams = none)
    (hbad : valid_batch_shape 0 batch = false) :
    (st.add_device_events stream device batch modifier).1 = 0
  ∧ (st.add_device_events stream device batch modifier).2.streams
      = st.streams ++ [(stream, DirtyTracker.default EventStreamStore.default)]
  ∧ (∃ tr2, alookup stream (st.add_device_events stream device batch modifier).2.streams
        = some tr2 ∧ tr2.dirty_state = .DirtyAll ∧ tr2.store = [])
  ∧ (∀ d2, (st.add_device_events stream device batch modifier).2.eventsOf stream d2 = [])
  ∧ (∀ k ∈ st.listeners,
       (k, stream) ∈ ((st.add_device_events stream device batch modifier).2.drain_due_notifications).1) := by
  have hg := goi_absent habsent
  have hlk : alookup stream (st.get_or_insert_default stream).streams
      = some (DirtyTracker.default EventStreamStore.default) := by
    rw [hg]
    simp only [alookup_append, habsent, Option.or]
    simp [alookup]
  have hlen : EventStreamStore.len_device
      ((DirtyTracker.default (EventStreamStore.default : EventStreamStore D E)).store) device = 0 := by
    simp [DirtyTracker.default, EventStreamStore.default, EventStreamStore.len_device, alookup]
  have hvalid : EventStreamStore.valid_to_add_events
      ((DirtyTracker.default (EventStreamStore.default : EventStreamStore D E)).store)
      device batch = none := by
    unfold EventStreamStore.valid_to_add_events
    rw [hlen, hbad]
    rfl
  have hr : st.add_device_events stream device batch modifier
      = (0, st.get_or_insert_default stream) := by
    unfold EventStore.add_device_events
    simp only [hlk, hvalid]
  rw [hr]
  refine ⟨rfl, by rw [hg], ⟨_, hlk, rfl, rfl⟩, fun d2 => ?_, fun k hk => ?_⟩
  · unfold EventStore.eventsOf
    rw [hlk]
    simp [DirtyTracker.default, EventStreamStore.default, alookup]
  · unfold EventStore.drain_due_notifications
    simp only
    refine List.mem_flatMap.mpr
      ⟨(stream, DirtyTracker.default EventStreamStore.default), ?_, ?_⟩
    · rw [hg]
      exact List.mem_append_right _ (List.mem_singleton.mpr rfl)
    · show (k, stream) ∈ notifications_for (st.get_or_insert_default stream).listeners none stream
      have hls : (st.get_or_insert_default stream).listeners = st.listeners := by
        rw [hg]
      unfold notifications_for
      rw [hls]
      refine List.mem_map.mpr ⟨k, List.mem_filter.mpr ⟨hk, by simp⟩, rfl⟩

/-- Witness for C10: empty store, batch whose single event has index 2. -/
theorem typed_invalid_batch_creates_stream_dirty_all_witness :
    alookup 0 (({ streams := [], listeners := [3], sync_states := [] } :
        EventStore Nat Nat Nat)).streams = none
  ∧ valid_batch_shape 0
      [{ timestamp := 4, within_device_events_index := 2, event := (9 : Nat) }] = false
  ∧ (let st : EventStore Nat Nat Nat :=
       { streams := [], listeners := [3], sync_states := [] }
     let batch : List (Timestamped Nat) :=
       [{ timestamp := 4, within_device_events_index := 2, event := 9 }]
     (st.add_device_events 0 1 batch (some 3)).1 = 0
     ∧ (st.add_device_events 0 1 batch (some 3)).2.streams
         = st.streams ++ [(0, DirtyTracker.default EventStreamStore.default)]
     ∧ (∃ tr2, alookup 0 (st.add_device_events 0 1 batch (some 3)).2.streams
           = some tr2 ∧ tr2.dirty_state = .DirtyAll ∧ tr2.store = [])
     ∧ (∀ d2, (st.add_device_events 0 1 batch (some 3)).2.eventsOf 0 d2 = [])
     ∧ (∀ k ∈ st.listeners,
          (k, 0) ∈ ((st.add_device_events 0 1 batch (some 3)).2.drain_due_notifications).1)) :=
  ⟨rfl, by decide,
   typed_invalid_batch_creates_stream_dirty_all _ 0 1 _ (some 3) rfl (by decide)⟩

/-! ## C5: add_raw_event appends exactly one fresh event -/

/-- C5: `add_raw_event` appends exactly one event to the (stream, device)
log, stamped with the device's event count before the call as its
within-device index, the current wall clock as its timestamp, and
`EventType::User(payload)` as its body; every other (stream, device) log is
unchanged. -/
theorem add_raw_event_appends_one [DecidableEq S] [DecidableEq D]
    (st : EventStore S D (EventType E)) (stream : S) (device : D) (payload : E)
    (modifier : Option ListenerKey) (now : Instant) :
    (st.add_raw_event stream device payload modifier now).eventsOf stream device
      = st.eventsOf stream device
        ++ [{ timestamp := now,
              within_device_events_index := (st.eventsOf stream device).length,
              event := .User payload }]
  ∧ ∀ s2 d2, ¬(s2 = stream ∧ d2 = device) →
      (st.add_raw_event stream device payload modifier now).eventsOf s2 d2
        = st.eventsOf s2 d2 := by
  obtain ⟨tr1, hlk, hev⟩ := alookup_goi_self st stream
  have hlen : tr1.store.len_device device = (st.eventsOf stream device).length := by
    unfold EventStreamStore.len_device
    rw [hev device]
  set ev : Timestamped (EventType E) :=
    { timestamp := now,
      within_device_events_index := (st.eventsOf stream device).length,
      event := .User payload } with hevdef
  have hshape : valid_batch_shape (tr1.store.len_device device) [ev] = true := by
    rw [hlen]
    unfold valid_batch_shape
    simp [contiguous_list, hevdef]
  have hvalid : tr1.store.valid_to_add_events device [ev] = some [ev] := by
    unfold EventStreamStore.valid_to_add_events
    rw [hshape]
    rfl
  have hraw : st.add_raw_event stream device payload modifier now
      = ((st.get_or_insert_default stream).add_device_events stream device [ev] modifier).2 := by
    unfold EventStore.add_raw_event
    simp only [hlk, hlen]
  have hpres : (st.get_or_insert_default stream).get_or_insert_default stream
      = st.get_or_insert_default stream :=
    goi_present (by rw [hlk]; rfl)
  set tracker2 : DirtyTracker (EventStreamStore D (EventType E)) :=
    { store := tr1.store.add_device_events device [ev],
      dirty_state := mark_dirty tr1.dirty_state modifier,
      loaded_at_least_once := tr1.loaded_at_least_once } with htr2
  set st2 : EventStore S D (EventType E) :=
    { st.get_or_insert_default stream with
      streams := aupdate stream (fun _ => tracker2)
                   (st.get_or_insert_default stream).streams } with hst2
  have hadd : (st.get_or_insert_default stream).add_device_events stream device [ev] modifier
      = (1, st2) := by
    unfold EventStore.add_device_events
    rw [hpres]
    simp only [hlk, hvalid]
    rfl
  have hraw2 : st.add_raw_event stream device payload modifier now = st2 := by
    rw [hraw, hadd]
  have hlk2 : alookup stream st2.streams = some tracker2 := by
    show alookup stream (aupdate stream (fun _ => tracker2)
      (st.get_or_insert_default stream).streams) = some tracker2
    rw [alookup_aupdate_self]
  rw [hraw2]
  constructor
  · rw [eventsOf_of_alookup hlk2 device]
    show (alookup device (tr1.store.add_device_events device [ev])).getD [] = _
    unfold EventStreamStore.add_device_events
    rw [alookup_aupdate_self]
    show ((alookup device tr1.store).getD [] ++ [ev]) = _
    rw [hev device]
  · intro s2 d2 hne
    by_cases hs : s2 = stream
    · subst hs
      have hd : d2 ≠ device := fun hd => hne ⟨rfl, hd⟩
      rw [eventsOf_of_alookup hlk2 d2]
      show (alookup d2 (tr1.store.add_device_events device [ev])).getD [] = _
      unfold EventStreamStore.add_device_events
      rw [alookup_aupdate_ne _ _ hd]
      rw [hev d2]
    · have hlk3 : alookup s2 st2.streams = alookup s2 st.streams := by
        show alookup s2 (aupdate stream (fun _ => tracker2)
          (st.get_or_insert_default stream).streams) = _
        rw [alookup_aupdate_ne _ _ hs]
        cases hl0 : alookup stream st.streams with
        | some tr => rw [goi_present (by rw [hl0]; rfl)]
        | none =>
          rw [goi_absent hl0]
          simp only [alookup_append]
          have h2 : alookup s2
              [(stream, DirtyTracker.default
                 (EventStreamStore.default : EventStreamStore D (EventType E)))] = none := by
            simp [alookup, hs]
          rw [h2]
          cases alookup s2 st.streams <;> rfl
      unfold EventStore.eventsOf
      rw [hlk3]

/-! ## C3: drain delivers exactly one notification per listener per dirty stream -/

theorem ncount_append [DecidableEq A] (a : A) (l1 l2 : List A) :
    ncount a (l1 ++ l2) = ncount a l1 + ncount a l2 := by
  induction l1 with
  | nil => simp [ncount]
  | cons b rest ih => simp [ncount, ih]; ring

theorem ncount_eq_zero_of_not_mem [DecidableEq A] {a : A} {l : List A} (h : a ∉ l) :
    ncount a l = 0 := by
  induction l with
  | nil => rfl
  | cons b rest ih =>
    have hb : b ≠ a := fun hb => h (hb ▸ List.mem_cons_self _ _)
    have ha : a ∉ rest := fun ha => h (List.mem_cons_of_mem _ ha)
    simp [ncount, hb, ih ha]

theorem ncount_eq_one_of_mem_nodup [DecidableEq A] {a : A} {l : List A}
    (hnd : l.Nodup) (h : a ∈ l) : ncount a l = 1 := by
  induction l with
  | nil => simp at h
  | cons b rest ih =>
    rcases List.nodup_cons.mp hnd with ⟨hb, hrest⟩
    rcases List.mem_cons.mp h with rfl | h
    · simp [ncount, ncount_eq_zero_of_not_mem hb]
    · have hba : b ≠ a := fun hba => hb (hba ▸ h)
      simp [ncount, hba, ih hrest h]

theorem ncount_map_pair [DecidableEq S] (s2 s : S) (l : List ListenerKey) (k : ListenerKey) :
    ncount ((k, s) : ListenerKey × S) (l.map (fun k0 => (k0, s2)))
      = if s2 = s then ncount k l else 0 := by
  induction l with
  | nil => simp [ncount]
  | cons a rest ih =>
    simp only [List.map_cons, ncount, ih]
    by_cases hs : s2 = s
    · subst hs
      by_cases hk : a = k
      · subst hk; simp
      · simp [hk, Prod.ext_iff]
    · simp [hs, Prod.ext_iff]

theorem ncount_filter_nodup [DecidableEq A] {l : List A} (hnd : l.Nodup)
    (p : A → Bool) (a : A) :
    ncount a (l.filter p) = if a ∈ l ∧ p a = true then 1 else 0 := by
  by_cases h : a ∈ l ∧ p a = true
  · rw [if_pos h]
    exact ncount_eq_one_of_mem_nodup (hnd.filter p) (List.mem_filter.mpr h)
  · rw [if_neg h]
    exact ncount_eq_zero_of_not_mem (fun hm => h (List.mem_filter.mp hm))

theorem alookup_map_val [DecidableEq K] (g : V → W) (k : K) (l : List (K × V)) :
    alookup k (l.map (fun p => (p.1, g p.2))) = (alookup k l).map g := by
  induction l with
  | nil => simp [alookup]
  | cons p rest ih =>
    obtain ⟨k1, v⟩ := p
    by_cases h : k = k1 <;> simp [alookup, h, ih]

theorem count_notifications_for [DecidableEq S] (listeners : List ListenerKey)
    (hL : listeners.Nodup) (excl : Option ListenerKey) (s2 s : S) (k : ListenerKey) :
    ncount ((k, s) : ListenerKey × S) (notifications_for listeners excl s2)
      = if s2 = s ∧ k ∈ listeners ∧ excl ≠ some k then 1 else 0 := by
  unfold notifications_for
  rw [ncount_map_pair]
  by_cases hs : s2 = s
  · rw [if_pos hs, ncount_filter_nodup hL]
    by_cases hk : k ∈ listeners ∧ excl ≠ some k
    · rw [if_pos ⟨hk.1, by simpa using hk.2⟩, if_pos ⟨hs, hk⟩]
    · rw [if_neg (fun h => hk ⟨h.1, by simpa using h.2⟩), if_neg (fun h => hk h.2)]
  · rw [if_neg hs, if_neg (fun h => hs h.1)]

theorem drain_flatMap_count_zero [DecidableEq S] (listeners : List ListenerKey)
    (hL : listeners.Nodup) (streams : List (S × DirtyTracker (EventStreamStore D E)))
    (k : ListenerKey) (s : S) (hs : s ∉ akeys streams) :
    ncount ((k, s) : ListenerKey × S)
      (streams.flatMap
        (fun p =>
          match p.2.dirty_state with
          | .Clean => []
          | .DirtyExcept key => notifications_for listeners (some key) p.1
          | .DirtyAll => notifications_for listeners none p.1)) = 0 := by
  induction streams with
  | nil => rfl
  | cons p rest ih =>
    obtain ⟨s1, tr⟩ := p
    simp only [akeys, List.map_cons, List.mem_cons, not_or] at hs
    rw [List.flatMap_cons, ncount_append]
    have hrest := ih (by simpa [akeys] using hs.2)
    have hhead :
        ncount ((k, s) : ListenerKey × S)
          (match tr.dirty_state with
           | DirtyState.Clean => []
           | DirtyState.DirtyExcept key => notifications_for listeners (some key) s1
           | DirtyState.DirtyAll => notifications_for listeners none s1) = 0 := by
      cases tr.dirty_state with
      | Clean => rfl
      | DirtyExcept key =>
        show ncount _ (notifications_for listeners (some key) s1) = 0
        rw [count_notifications_for listeners hL]
        rw [if_neg (fun h => hs.1 h.1.symm)]
      | DirtyAll =>
        show ncount _ (notifications_for listeners none s1) = 0
        rw [count_notifications_for listeners hL]
        rw [if_neg (fun h => hs.1 h.1.symm)]
    rw [hhead, hrest]

theorem drain_flatMap_count [DecidableEq S] (listeners : List ListenerKey)
    (hL : listeners.Nodup) (streams : List (S × DirtyTracker (EventStreamStore D E)))
    (hS : (akeys streams).Nodup) (k : ListenerKey) (s : S) :
    ncount ((k, s) : ListenerKey × S)
      (streams.flatMap
        (fun p =>
          match p.2.dirty_state with
          | .Clean => []
          | .DirtyExcept key => notifications_for listeners (some key) p.1
          | .DirtyAll => notifications_for listeners none p.1))
      = (match alookup s streams with
         | some tr =>
           match tr.dirty_state with
           | DirtyState.Clean => 0
           | DirtyState.DirtyExcept k0 => if k ∈ listeners ∧ k ≠ k0 then 1 else 0
           | DirtyState.DirtyAll => if k ∈ listeners then 1 else 0
         | none => 0) := by
  induction streams with
  | nil => simp [alookup, ncount]
  | cons p rest ih =>
    obtain ⟨s1, tr⟩ := p
    simp only [akeys, List.map_cons, List.nodup_cons] at hS
    rw [List.flatMap_cons, ncount_append]
    by_cases hs : s = s1
    · subst hs
      have hrest :
          ncount ((k, s) : ListenerKey × S)
            (rest.flatMap
              (fun p =>
                match p.2.dirty_state with
                | DirtyState.Clean => []
                | DirtyState.DirtyExcept key => notifications_for listeners (some key) p.1
                | DirtyState.DirtyAll => notifications_for listeners none p.1)) = 0 :=
        drain_flatMap_count_zero listeners hL rest k s (by simpa [akeys] using hS.1)
      rw [hrest]
      have halk : alookup s ((s, tr) :: rest) = some tr := by simp [alookup]
      rw [halk, Nat.add_zero]
      show ncount ((k, s) : ListenerKey × S)
          (match tr.dirty_state with
           | DirtyState.Clean => []
           | DirtyState.DirtyExcept key => notifications_for listeners (some key) s
           | DirtyState.DirtyAll => notifications_for listeners none s)
        = (match tr.dirty_state with
           | DirtyState.Clean => 0
           | DirtyState.DirtyExcept k0 => if k ∈ listeners ∧ k ≠ k0 then 1 else 0
           | DirtyState.DirtyAll => if k ∈ listeners then 1 else 0)
      cases tr.dirty_state with
      | Clean => rfl
      | DirtyExcept k0 =>
        show ncount _ (notifications_for listeners (some k0) s) = _
        rw [count_notifications_for listeners hL]
        by_cases hk : k ∈ listeners ∧ k ≠ k0
        · rw [if_pos ⟨rfl, hk.1, fun h => hk.2 (by injection h with h2; exact h2.symm)⟩]
          exact (if_pos hk).symm
        · rw [if_neg (fun hc => hk ⟨hc.2.1, fun h => hc.2.2 (by rw [h])⟩)]
          exact (if_neg hk).symm
      | DirtyAll =>
        show ncount _ (notifications_for listeners none s) = _
        rw [count_notifications_for listeners hL]
        by_cases hk : k ∈ listeners
        · rw [if_pos ⟨rfl, hk, by simp⟩]
          exact (if_pos hk).symm
        · rw [if_neg (fun h => hk h.2.1)]
          exact (if_neg hk).symm
    · have hhead :
          ncount ((k, s) : ListenerKey × S)
            (match tr.dirty_state with
             | DirtyState.Clean => []
             | DirtyState.DirtyExcept key => notifications_for listeners (some key) s1
             | DirtyState.DirtyAll => notifications_for listeners none s1) = 0 := by
        cases tr.dirty_state with
        | Clean => rfl
        | DirtyExcept key =>
          show ncount _ (notifications_for listeners (some key) s1) = 0
          rw [count_notifications_for listeners hL, if_neg (fun h => hs h.1.symm)]
        | DirtyAll =>
          show ncount _ (notifications_for listeners none s1) = 0
          rw [count_notifications_for listeners hL, if_neg (fun h => hs h.1.symm)]
      rw [hhead, ih hS.2]
      simp [alookup, hs]

/-- C3: `drain_due_notifications` schedules, for each stream whose dirty
state is not Clean, exactly one notification per registered listener except
the one named by `DirtyExcept` (none excluded for `DirtyAll`), schedules
nothing for Clean streams, resets every stream to Clean while leaving the
stored events, listeners and sync states untouched, and returns the
notification closures as data without invoking any of them. -/
theorem drain_due_notifications_spec [DecidableEq S] [DecidableEq D]
    (st : EventStore S D E) (hS : (akeys st.streams).Nodup) (hL : st.listeners.Nodup) :
    (∀ k s, ncount ((k, s) : ListenerKey × S) st.drain_due_notifications.1
      = (match alookup s st.streams with
         | some tr =>
           match tr.dirty_state with
           | DirtyState.Clean => 0
           | DirtyState.DirtyExcept k0 => if k ∈ st.listeners ∧ k ≠ k0 then 1 else 0
           | DirtyState.DirtyAll => if k ∈ st.listeners then 1 else 0
         | none => 0))
  ∧ (∀ p ∈ st.drain_due_notifications.2.streams, p.2.dirty_state = .Clean)
  ∧ st.drain_due_notifications.2.listeners = st.listeners
  ∧ st.drain_due_notifications.2.sync_states = st.sync_states
  ∧ (∀ s, (alookup s st.drain_due_notifications.2.streams).map (fun tr => tr.store)
        = (alookup s st.streams).map (fun tr => tr.store)) := by
  refine ⟨fun k s => ?_, fun p hp => ?_, rfl, rfl, fun s => ?_⟩
  · exact drain_flatMap_count st.listeners hL st.streams hS k s
  · rcases List.mem_map.mp hp with ⟨q, _, hq⟩
    rw [← hq]
  · show (alookup s (st.streams.map
        (fun p => (p.1, { p.2 with dirty_state := DirtyState.Clean })))).map
      (fun tr => tr.store) = _
    induction st.streams with
    | nil => rfl
    | cons p rest ih =>
      obtain ⟨k1, v⟩ := p
      by_cases h : s = k1 <;> simp [alookup, h] <;> exact ih

/-- Witness for C3 on a store with two listeners and three streams, one in
each dirty state: listener 3 is excluded on stream 1 but notified on
stream 2; the Clean stream 0 notifies nobody. -/
theorem drain_due_notifications_spec_witness :
    (akeys c3_example.streams).Nodup
  ∧ c3_example.listeners.Nodup
  ∧ ncount ((3, 0) : ListenerKey × Nat) c3_example.drain_due_notifications.1 = 0
  ∧ ncount ((3, 1) : ListenerKey × Nat) c3_example.drain_due_notifications.1 = 0
  ∧ ncount ((4, 1) : ListenerKey × Nat) c3_example.drain_due_notifications.1 = 1
  ∧ ncount ((3, 2) : ListenerKey × Nat) c3_example.drain_due_notifications.1 = 1
  ∧ ncount ((4, 2) : ListenerKey × Nat) c3_example.drain_due_notifications.1 = 1
  ∧ c3_example.drain_due_notifications.2.listeners = c3_example.listeners := by
  have h := drain_due_notifications_spec c3_example (by decide) (by decide)
  exact ⟨by decide, by decide,
         (h.1 3 0).trans (by decide), (h.1 3 1).trans (by decide),
         (h.1 4 1).trans (by decide), (h.1 3 2).trans (by decide),
         (h.1 4 2).trans (by decide), h.2.2.1⟩

/-! ## C7: two clock updates record the element-wise maximum -/

theorem join_inner_cons [DecidableEq D] (dm1 : List (D × Nat)) (d1 : D) (n1 : Nat)
    (rest : List (D × Nat)) :
    join_inner dm1 ((d1, n1) :: rest)
      = join_inner
          (aupdate d1 (fun old => match old with | some c => max c n1 | none => n1) dm1)
          rest := rfl

theorem alookup_join_inner [DecidableEq D] (dm1 dm2 : List (D × Nat))
    (hnd : (akeys dm2).Nodup) (d : D) :
    alookup d (join_inner dm1 dm2)
      = (match alookup d dm1, alookup d dm2 with
         | some a, some b => some (max a b)
         | some a, none => some a
         | none, some b => some b
         | none, none => none) := by
  induction dm2 generalizing dm1 with
  | nil =>
    show alookup d dm1 = _
    cases alookup d dm1 <;> simp [alookup]
  | cons p rest ih =>
    obtain ⟨d1, n1⟩ := p
    rw [join_inner_cons]
    simp only [akeys, List.map_cons, List.nodup_cons] at hnd
    rw [ih _ hnd.2]
    by_cases hd : d = d1
    · subst hd
      have h2 : alookup d rest = none :=
        (alookup_eq_none_iff d rest).mpr (by simpa [akeys] using hnd.1)
      have h3 : alookup d ((d, n1) :: rest) = some n1 := by simp [alookup]
      rw [h2, h3, alookup_aupdate_self]
      cases alookup d dm1 <;> simp
    · have h3 : alookup d ((d1, n1) :: rest) = alookup d rest := by simp [alookup, hd]
      rw [alookup_aupdate_ne _ _ hd, h3]

theorem join_clocks_cons [DecidableEq S] [DecidableEq D] (c1 : Clock S D) (s1 : S)
    (dm : List (D × Nat)) (rest : Clock S D) :
    join_clocks c1 ((s1, dm) :: rest)
      = join_clocks (aupdate s1 (fun old => join_inner (old.getD []) dm) c1) rest := rfl

theorem clock_lookup_join [DecidableEq S] [DecidableEq D] (c1 c2 : Clock S D)
    (hw : wf_clock c2) (s : S) (d : D) :
    clock_lookup (join_clocks c1 c2) s d
      = (match clock_lookup c1 s d, clock_lookup c2 s d with
         | some a, some b => some (max a b)
         | some a, none => some a
         | none, some b => some b
         | none, none => none) := by
  revert hw
  induction c2 generalizing c1 with
  | nil =>
    intro hw
    show clock_lookup c1 s d = _
    cases clock_lookup c1 s d <;> simp [clock_lookup, alookup]
  | cons p rest ih =>
    intro hw
    obtain ⟨hnd, hin⟩ := hw
    obtain ⟨s1, dm⟩ := p
    rw [join_clocks_cons]
    simp only [akeys, List.map_cons, List.nodup_cons] at hnd
    rw [ih _ ⟨hnd.2, fun q hq => hin q (List.mem_cons_of_mem _ hq)⟩]
    by_cases hs : s = s1
    · subst hs
      have h2 : clock_lookup rest s d = none := by
        unfold clock_lookup
        rw [(alookup_eq_none_iff s rest).mpr (by simpa [akeys] using hnd.1)]
        rfl
      have h3 : clock_lookup ((s, dm) :: rest) s d = alookup d dm := by
        unfold clock_lookup
        simp [alookup]
      rw [h2, h3]
      have h4 : clock_lookup (aupdate s (fun old => join_inner (old.getD []) dm) c1) s d
          = alookup d (join_inner ((alookup s c1).getD []) dm) := by
        unfold clock_lookup
        rw [alookup_aupdate_self]
        rfl
      rw [h4, alookup_join_inner _ _ (hin (s, dm) (List.mem_cons_self _ _)) d]
      have h5 : alookup d ((alookup s c1).getD []) = clock_lookup c1 s d := by
        unfold clock_lookup
        cases alookup s c1 <;> simp [alookup]
      rw [h5]
      cases clock_lookup c1 s d <;> cases alookup d dm <;> rfl
    · have h2 : clock_lookup ((s1, dm) :: rest) s d = clock_lookup rest s d := by
        unfold clock_lookup
        simp [alookup, hs]
      have h3 : clock_lookup (aupdate s1 (fun old => join_inner (old.getD []) dm) c1) s d
          = clock_lookup c1 s d := by
        unfold clock_lookup
        rw [alookup_aupdate_ne _ _ hs]
      rw [h2, h3]

/-- C7: starting from a fresh sync state, two `update_sync_clock` calls with
clocks c1 then c2 record exactly the element-wise maximum of c1 and c2 over
every (stream, device) pair present in either clock. -/
theorem update_sync_clock_elementwise_max [DecidableEq S] [DecidableEq D]
    (st : EventStore S D E) (target : SyncTarget) (c1 c2 : Clock S D)
    (hfresh : st.sync_states = []) (h1 : wf_clock c1) (h2 : wf_clock c2) :
    ∃ state,
      alookup target
        (((st.update_sync_clock target c1).update_sync_clock target c2).sync_states)
        = some state
      ∧ ∀ s d, clock_lookup state.remote_clock s d = spec_elementwise_max c1 c2 s d := by
  have hs1 : (st.update_sync_clock target c1).sync_states
      = [(target, { (SyncState.default : SyncState S D) with
                    remote_clock := join_clocks [] c1 })] := by
    unfold EventStore.update_sync_clock
    rw [hfresh]
    rfl
  refine ⟨{ (SyncState.default : SyncState S D) with
            remote_clock := join_clocks (join_clocks [] c1) c2 }, ?_, fun s d => ?_⟩
  · show alookup target
      (aupdate target _ (st.update_sync_clock target c1).sync_states) = _
    rw [hs1, alookup_aupdate_self]
    simp [alookup]
  · show clock_lookup (join_clocks (join_clocks [] c1) c2) s d = _
    rw [clock_lookup_join _ _ h2]
    have hc1 : clock_lookup (join_clocks [] c1) s d = clock_lookup c1 s d := by
      rw [clock_lookup_join _ _ h1]
      have hnil : clock_lookup ([] : Clock S D) s d = none := rfl
      rw [hnil]
      cases clock_lookup c1 s d <;> rfl
    rw [hc1]
    unfold spec_elementwise_max
    rfl

/-- Witness for C7 with overlapping two-stream clocks. -/
theorem update_sync_clock_elementwise_max_witness :
    ((EventStore.default : EventStore Nat Nat Nat)).sync_states = []
  ∧ wf_clock ([(0, [(0, 3), (1, 1)])] : Clock Nat Nat)
  ∧ wf_clock ([(0, [(0, 2), (2, 5)]), (1, [(0, 4)])] : Clock Nat Nat)
  ∧ (∃ state,
      alookup SyncTarget.Opfs
        ((((EventStore.default : EventStore Nat Nat Nat).update_sync_clock
             SyncTarget.Opfs [(0, [(0, 3), (1, 1)])]).update_sync_clock
             SyncTarget.Opfs [(0, [(0, 2), (2, 5)]), (1, [(0, 4)])]).sync_states)
        = some state
      ∧ ∀ s d, clock_lookup state.remote_clock s d
          = spec_elementwise_max [(0, [(0, 3), (1, 1)])]
              [(0, [(0, 2), (2, 5)]), (1, [(0, 4)])] s d) :=
  ⟨rfl, by simp [wf_clock, akeys], by simp [wf_clock, akeys],
   update_sync_clock_elementwise_max _ _ _ _ rfl
     (by simp [wf_clock, akeys]) (by simp [wf_clock, akeys])⟩

/-! ## C8: JSON round-trip for Timestamped<EventType<E>> -/

/-- C8: for every payload codec that round-trips losslessly, every
`Timestamped<EventType<E>>` value serialises successfully and deserialises
back to itself. -/
theorem timestamped_event_type_round_trip {E : Type}
    (toE : E → Except String Json) (fromE : Json → Except String E)
    (hE : ∀ e, ∃ j, toE e = Except.ok j ∧ fromE j = Except.ok e)
    (x : Timestamped (EventType E)) :
    ∃ j, Timestamped.to_json (EventType.to_json toE) x = Except.ok j
       ∧ Timestamped.from_json (EventType.from_json fromE) j = Except.ok x := by
  obtain ⟨t, idx, ev⟩ := x
  cases ev with
  | Meta m => exact nomatch m
  | User e =>
    obtain ⟨j, hto, hfrom⟩ := hE e
    refine ⟨Json.obj [("timestamp", Json.num t),
                      ("within_device_events_index", Json.num (Int.ofNat idx)),
                      ("event", Json.obj [("User", j)])], ?_, ?_⟩
    · show (Timestamped.map (EventType.to_json toE)
            { timestamp := t, within_device_events_index := idx,
              event := EventType.User e }).transpose.map serde_to_value_timestamped = _
      unfold Timestamped.map EventType.to_json
      simp only [EventType.map, hto, EventType.transpose, Except.map, serde_to_value_event_type]
      rfl
    · show (serde_from_value_timestamped _).bind _ = _
      unfold serde_from_value_timestamped
      simp only [alookup]
      norm_num
      show (Timestamped.map (EventType.from_json fromE)
              { timestamp := t, within_device_events_index := (Int.ofNat idx).toNat,
                event := Json.obj [("User", j)] }).transpose = _
      unfold Timestamped.map EventType.from_json serde_from_value_event_type
      simp [hfrom, Except.bind, EventType.map, EventType.transpose, Except.map,
            Timestamped.transpose]

/-- Witness for C8 at `E = Unit` with the null codec, showing the concrete
serialised object and its successful parse. -/
theorem timestamped_event_type_round_trip_witness :
    (fun _ : Unit => (Except.ok Json.null : Except String Json)) ()
      = Except.ok Json.null
  ∧ Timestamped.to_json
      (EventType.to_json (fun _ : Unit => Except.ok Json.null))
      { timestamp := 0, within_device_events_index := 0, event := EventType.User () }
      = Except.ok (Json.obj [("timestamp", Json.num 0),
                             ("within_device_events_index", Json.num 0),
                             ("event", Json.obj [("User", Json.null)])])
  ∧ Timestamped.from_json
      (EventType.from_json (fun j => match j with
        | Json.null => Except.ok ()
        | _ => Except.error "expected null"))
      (Json.obj [("timestamp", Json.num 0),
                 ("within_device_events_index", Json.num 0),
                 ("event", Json.obj [("User", Json.null)])])
      = Except.ok { timestamp := 0, within_device_events_index := 0,
                    event := EventType.User () } := by
  obtain ⟨j, h1, h2⟩ := timestamped_event_type_round_trip
    (fun _ : Unit => Except.ok Json.null)
    (fun j => match j with
      | Json.null => Except.ok ()
      | _ => Except.error "expected null")
    (fun e => ⟨Json.null, rfl, rfl⟩)
    { timestamp := 0, within_device_events_index := 0, event := EventType.User () }
  have hcalc : Timestamped.to_json
      (EventType.to_json (fun _ : Unit => Except.ok Json.null))
      { timestamp := 0, within_device_events_index := 0, event := EventType.User () }
      = Except.ok (Json.obj [("timestamp", Json.num 0),
                             ("within_device_events_index", Json.num 0),
                             ("event", Json.obj [("User", Json.null)])]) := rfl
  rw [hcalc] at h1
  have hj : Json.obj [("timestamp", Json.num 0),
                      ("within_device_events_index", Json.num 0),
                      ("event", Json.obj [("User", Json.null)])] = j := by
    injection h1
  exact ⟨rfl, hcalc, hj ▸ h2⟩

/-! ## C1: the merged iteration is the sorted view of the stored state -/

theorem perm_flatMap {A B : Type} (f : A → List B) {l1 l2 : List A} (h : l1.Perm l2) :
    (l1.flatMap f).Perm (l2.flatMap f) := by
  induction h with
  | nil => exact List.Perm.refl _
  | cons x h ih =>
    rw [List.flatMap_cons, List.flatMap_cons]
    exact ih.append_left (f x)
  | swap x y l =>
    rw [List.flatMap_cons, List.flatMap_cons, List.flatMap_cons, List.flatMap_cons,
        ← List.append_assoc, ← List.append_assoc]
    exact (List.perm_append_comm).append_right _
  | trans h1 h2 ih1 ih2 => exact ih1.trans ih2

theorem perm_of_alookup_eq [DecidableEq K] {l1 l2 : List (K × V)}
    (h1 : (akeys l1).Nodup) (h2 : (akeys l2).Nodup)
    (heq : ∀ k, alookup k l1 = alookup k l2) : l1.Perm l2 := by
  induction l1 generalizing l2 with
  | nil =>
    cases l2 with
    | nil => exact List.Perm.refl _
    | cons p rest =>
      exfalso
      have hx := heq p.1
      rw [show alookup p.1 ([] : List (K × V)) = none from rfl] at hx
      have : alookup p.1 (p :: rest) = some p.2 := by
        obtain ⟨k, v⟩ := p
        simp [alookup]
      rw [this] at hx
      exact Option.noConfusion hx
  | cons p rest ih =>
    obtain ⟨k, v⟩ := p
    have hk : alookup k l2 = some v := by
      have hx := (heq k).symm
      rwa [show alookup k ((k, v) :: rest) = some v from by simp [alookup]] at hx
    obtain ⟨t1, t2, hsplit⟩ := List.append_of_mem (mem_of_alookup_eq_some hk)
    subst hsplit
    have hknot1 : k ∉ akeys t1 := by
      intro hmem
      have : ¬ (akeys (t1 ++ (k, v) :: t2)).Nodup := by
        simp only [akeys, List.map_append, List.map_cons]
        intro hnd
        have := (List.nodup_append.mp hnd).2.2
        exact this hmem (List.mem_cons_self _ _)
      exact this h2
    have hknot2 : k ∉ akeys t2 := by
      intro hmem
      have hnd := h2
      simp only [akeys, List.map_append, List.map_cons] at hnd
      have := (List.nodup_append.mp hnd).2.1
      exact (List.nodup_cons.mp this).1 hmem
    simp only [akeys, List.map_cons, List.nodup_cons] at h1
    have htail : rest.Perm (t1 ++ t2) := by
      refine ih h1.2 ?_ ?_
      · have hnd := h2
        simp only [akeys, List.map_append, List.map_cons] at hnd
        rcases List.nodup_append.mp hnd with ⟨ha, hb, hd⟩
        simp only [akeys, List.map_append]
        exact List.nodup_append.mpr
          ⟨ha, (List.nodup_cons.mp hb).2,
           fun a haa hab => hd haa (List.mem_cons_of_mem _ hab)⟩
      · intro k2
        by_cases hkk : k2 = k
        · subst hkk
          rw [(alookup_eq_none_iff k2 rest).mpr (by simpa [akeys] using h1.1)]
          rw [(alookup_eq_none_iff k2 (t1 ++ t2)).mpr ?_]
          simp only [akeys, List.map_append, List.mem_append]
          rintro (hmem | hmem)
          · exact hknot1 hmem
          · exact hknot2 hmem
        · have hx := heq k2
          rw [show alookup k2 ((k, v) :: rest) = alookup k2 rest from by
                simp [alookup, hkk]] at hx
          rw [hx, alookup_append, alookup_append]
          have : alookup k2 ((k, v) :: t2) = alookup k2 t2 := by simp [alookup, hkk]
          rw [this]
    exact (htail.cons (k, v)).trans List.perm_middle.symm

theorem indexed_from_mem_ge {n : Nat} {l : List (Timestamped E)}
    (h : indexed_from n l) : ∀ e ∈ l, n ≤ e.within_device_events_index := by
  induction l generalizing n with
  | nil => intro e he; simp at he
  | cons a rest ih =>
    obtain ⟨ha, hrest⟩ := h
    intro e he
    rcases List.mem_cons.mp he with rfl | he
    · exact ha.ge
    · exact Nat.le_of_succ_le (ih hrest e he)

theorem indexed_from_map_nodup {n : Nat} {l : List (Timestamped E)}
    (h : indexed_from n l) : (l.map (fun e => e.within_device_events_index)).Nodup := by
  induction l generalizing n with
  | nil => simp
  | cons a rest ih =>
    obtain ⟨ha, hrest⟩ := h
    rw [List.map_cons, List.nodup_cons]
    refine ⟨fun hmem => ?_, ih hrest⟩
    rcases List.mem_map.mp hmem with ⟨e, he, heq⟩
    have hge := indexed_from_mem_ge hrest e he
    omega

theorem nodup_all_pairs_keys [DecidableEq D] (s : EventStreamStore D E)
    (hw : wf_stream_store s) :
    ((s.all_pairs).map (fun p => (p.1, p.2.within_device_events_index))).Nodup := by
  obtain ⟨hk, hi⟩ := hw
  induction s with
  | nil => simp [EventStreamStore.all_pairs]
  | cons p rest ih =>
    obtain ⟨d, evs⟩ := p
    simp only [akeys, List.map_cons, List.nodup_cons] at hk
    have hblock :
        ((evs.map (fun e => (d, e))).map
          (fun p : D × Timestamped E => (p.1, p.2.within_device_events_index))).Nodup := by
      rw [List.map_map]
      have hinj : Function.Injective
          (fun i : Nat => ((d, i) : D × Nat)) := fun a b hab => by simpa using hab
      have : ((fun p : D × Timestamped E => (p.1, p.2.within_device_events_index)) ∘
                (fun e => (d, e)))
           = (fun i : Nat => ((d, i) : D × Nat)) ∘ (fun e => e.within_device_events_index) := rfl
      rw [this, ← List.map_map]
      exact (indexed_from_map_nodup (hi (d, evs) (List.mem_cons_self _ _))).map hinj
    have hrest : ((EventStreamStore.all_pairs rest).map
        (fun p => (p.1, p.2.within_device_events_index))).Nodup :=
      ih hk.2 (fun q hq => hi q (List.mem_cons_of_mem _ hq))
    show ((EventStreamStore.all_pairs ((d, evs) :: rest)).map _).Nodup
    rw [show EventStreamStore.all_pairs ((d, evs) :: rest)
          = evs.map (fun e => (d, e)) ++ EventStreamStore.all_pairs rest from rfl,
        List.map_append]
    refine List.Nodup.append hblock hrest ?_
    intro x hx1 hx2
    rcases List.mem_map.mp hx1 with ⟨q1, hq1, he1⟩
    rcases List.mem_map.mp hq1 with ⟨e1, _, hqe1⟩
    rcases List.mem_map.mp hx2 with ⟨q2, hq2, he2⟩
    have hfst1 : x.1 = d := by rw [← he1, ← hqe1]
    have hfst2 : x.1 ∈ akeys rest := by
      rcases List.mem_flatMap.mp hq2 with ⟨entry, hentry, hq2m⟩
      rcases List.mem_map.mp hq2m with ⟨e2, _, hqe2⟩
      have : q2.1 = entry.1 := by rw [← hqe2]
      rw [← he2]
      show q2.1 ∈ akeys rest
      rw [this]
      exact List.mem_map.mpr ⟨entry, hentry, rfl⟩
    rw [hfst1] at hfst2
    exact hk.1 hfst2

theorem merge_le_ne_lt [LinearOrder D] {a b : D × Timestamped E}
    (hle : merge_le a b)
    (hne : (a.1, a.2.within_device_events_index) ≠ (b.1, b.2.within_device_events_index)) :
    merge_lt a b := by
  rcases hle with h | ⟨h, hd | ⟨hd, hi⟩⟩
  · exact Or.inl h
  · exact Or.inr ⟨h, Or.inl hd⟩
  · rcases Nat.lt_or_ge a.2.within_device_events_index b.2.within_device_events_index
      with h2 | h2
    · exact Or.inr ⟨h, Or.inr ⟨hd, h2⟩⟩
    · exact absurd (by rw [hd, Nat.le_antisymm hi h2]) hne

/-- C1: the merged iteration yields all stored events of the stream sorted
by (timestamp, device, within-device index), and the result is a function
of the per-device sequences only: two stores with the same per-device
sequences (whatever insertion produced them) iterate identically. -/
theorem merged_iter_sorted_deterministic [DecidableEq D] [LinearOrder D]
    (s1 s2 : EventStreamStore D E)
    (h1 : wf_stream_store s1) (h2 : wf_stream_store s2)
    (heq : ∀ d, alookup d s1 = alookup d s2) :
    List.Sorted merge_le s1.iter_tagged
  ∧ s1.iter_tagged.Perm s1.all_pairs
  ∧ s1.iter_tagged = s2.iter_tagged
  ∧ s1.iter = s2.iter := by
  have hsorted : ∀ (s : EventStreamStore D E), List.Sorted merge_le s.iter_tagged :=
    fun s => List.sorted_insertionSort merge_le s.all_pairs
  have hperm : ∀ (s : EventStreamStore D E), s.iter_tagged.Perm s.all_pairs :=
    fun s => List.perm_insertionSort merge_le s.all_pairs
  have hstrict : ∀ (s : EventStreamStore D E), wf_stream_store s →
      List.Sorted merge_lt s.iter_tagged := by
    intro s hw
    have hnd : ((s.iter_tagged).map
        (fun p => (p.1, p.2.within_device_events_index))).Nodup :=
      (((hperm s).map _).nodup_iff).mpr (nodup_all_pairs_keys s hw)
    have hpw := List.pairwise_map.mp hnd
    exact ((hsorted s).and hpw).imp (fun hab => merge_le_ne_lt hab.1 hab.2)
  have hpermS : s1.Perm s2 := perm_of_alookup_eq h1.1 h2.1 heq
  have hpairs : (EventStreamStore.all_pairs s1).Perm (EventStreamStore.all_pairs s2) :=
    perm_flatMap _ hpermS
  have hperm12 : s1.iter_tagged.Perm s2.iter_tagged :=
    (hperm s1).trans (hpairs.trans (hperm s2).symm)
  have htagged : s1.iter_tagged = s2.iter_tagged :=
    List.eq_of_perm_of_sorted hperm12 (hstrict s1 h1) (hstrict s2 h2)
  exact ⟨hsorted s1, hperm s1, htagged, by unfold EventStreamStore.iter; rw [htagged]⟩

/-- Witness for C1: the same two per-device sequences stored in either
entry order iterate to the same merged order. -/
theorem merged_iter_sorted_deterministic_witness :
    wf_stream_store c1_example_a
  ∧ wf_stream_store c1_example_b
  ∧ EventStreamStore.iter_tagged c1_example_a = EventStreamStore.iter_tagged c1_example_b
  ∧ EventStreamStore.iter c1_example_a = EventStreamStore.iter c1_example_b :=
  have h := merged_iter_sorted_deterministic c1_example_a c1_example_b
    ⟨by decide, by decide⟩ ⟨by decide, by decide⟩
    (by
      intro d
      by_cases h0 : d = 0 <;> by_cases h1 : d = 1 <;>
        simp [c1_example_a, c1_example_b, alookup, h0, h1])
  ⟨⟨by decide, by decide⟩, ⟨by decide, by decide⟩, h.2.2.1, h.2.2.2⟩

/-! ## C4: sync is idempotent.  Utility lemmas -/

theorem foldl_fixed {A B : Type} {f : A → B → A} {l : List B} {a : A}
    (h : ∀ acc x, x ∈ l → f acc x = acc) : l.foldl f a = a := by
  induction l generalizing a with
  | nil => rfl
  | cons x rest ih =>
    rw [List.foldl_cons, h a x (List.mem_cons_self _ _)]
    exact ih (fun acc y hy => h acc y (List.mem_cons_of_mem _ hy))

theorem alookup_map_self [DecidableEq K] (g : K → V) (k : K) (l : List K) :
    alookup k (l.map (fun x => (x, g x))) = if k ∈ l then some (g k) else none := by
  induction l with
  | nil => simp [alookup]
  | cons x rest ih =>
    by_cases h : k = x
    · subst h; simp [alookup]
    · simp [alookup, h, ih]

theorem eventsOf_ne_nil_isSome [DecidableEq S] [DecidableEq D]
    {st : EventStore S D E} {s : S} {d : D} (h : st.eventsOf s d ≠ []) :
    (alookup s st.streams).isSome = true := by
  unfold EventStore.eventsOf at h
  cases hl : alookup s st.streams with
  | some tr => rfl
  | none => rw [hl] at h; exact absurd rfl h

/-! ### Contiguity lemmas -/

theorem indexed_from_filter_drop {L n : Nat} {l : List (Timestamped E)}
    (h : indexed_from n l) :
    l.filter (fun e => decide (L ≤ e.within_device_events_index)) = l.drop (L - n) := by
  induction l generalizing n with
  | nil => simp
  | cons a rest ih =>
    obtain ⟨ha, hrest⟩ := h
    by_cases hle : L ≤ n
    · have hkeep : ∀ e ∈ a :: rest, decide (L ≤ e.within_device_events_index) = true := by
        intro e he
        rcases List.mem_cons.mp he with rfl | he
        · simp [ha, hle]
        · have := indexed_from_mem_ge hrest e he
          simp
          omega
      rw [List.filter_eq_self.mpr hkeep]
      rw [Nat.sub_eq_zero_of_le hle]
      rfl
    · have hLn : n < L := Nat.lt_of_not_le hle
      have hdrop : decide (L ≤ a.within_device_events_index) = false := by
        simp [ha]
        omega
      rw [List.filter_cons_of_neg (by rw [hdrop]; simp)]
      rw [ih hrest]
      have : L - n = (L - (n + 1)) + 1 := by omega
      rw [this]
      rfl

theorem indexed_from_drop {n : Nat} {l : List (Timestamped E)} (j : Nat)
    (h : indexed_from n l) : indexed_from (n + j) (l.drop j) := by
  induction j generalizing n l with
  | zero => simpa using h
  | succ j ih =>
    cases l with
    | nil => simp [indexed_from]
    | cons a rest =>
      obtain ⟨-, hrest⟩ := h
      have := ih hrest
      rw [List.drop_succ_cons]
      have heq : n + 1 + j = n + (j + 1) := by omega
      rw [← heq]
      exact this

theorem indexed_from_append {n : Nat} {l1 l2 : List (Timestamped E)}
    (h1 : indexed_from n l1) (h2 : indexed_from (n + l1.length) l2) :
    indexed_from n (l1 ++ l2) := by
  induction l1 generalizing n with
  | nil => simpa using h2
  | cons a rest ih =>
    obtain ⟨ha, hrest⟩ := h1
    refine ⟨ha, ih hrest ?_⟩
    have heq : n + 1 + rest.length = n + (a :: rest).length := by simp; omega
    rw [heq]
    exact h2

theorem indexed_from_contiguous {n : Nat} {l : List (Timestamped E)}
    (h : indexed_from n l) : contiguous_list l = true := by
  induction l generalizing n with
  | nil => rfl
  | cons a rest ih =>
    obtain ⟨ha, hrest⟩ := h
    cases rest with
    | nil => rfl
    | cons b rest2 =>
      show (b.within_device_events_index == a.within_device_events_index + 1
            && contiguous_list (b :: rest2)) = true
      have hb : b.within_device_events_index = n + 1 := hrest.1
      rw [ih hrest]
      simp [hb, ha]

theorem valid_batch_shape_of_indexed {L : Nat} {l : List (Timestamped E)}
    (hne : l ≠ []) (h : indexed_from L l) : valid_batch_shape L l = true := by
  cases l with
  | nil => exact absurd rfl hne
  | cons a rest =>
    show (a.within_device_events_index == L && contiguous_list (a :: rest)) = true
    rw [indexed_from_contiguous h]
    simp [h.1]

theorem valid_batch_shape_indexed {L : Nat} {l : List (Timestamped E)}
    (h : valid_batch_shape L l = true) : indexed_from L l := by
  induction l generalizing L with
  | nil => exact absurd h (by simp [valid_batch_shape])
  | cons a rest ih =>
    unfold valid_batch_shape at h
    rw [Bool.and_eq_true, beq_iff_eq] at h
    obtain ⟨ha, hcont⟩ := h
    show a.within_device_events_index = L ∧ indexed_from (L + 1) rest
    refine ⟨ha, ?_⟩
    cases rest with
    | nil => simp [indexed_from]
    | cons b rest2 =>
      rw [show contiguous_list (a :: b :: rest2)
            = (b.within_device_events_index == a.within_device_events_index + 1
               && contiguous_list (b :: rest2)) from rfl,
          Bool.and_eq_true, beq_iff_eq] at hcont
      obtain ⟨hb, hcont2⟩ := hcont
      apply ih
      unfold valid_batch_shape
      rw [Bool.and_eq_true, beq_iff_eq]
      exact ⟨by omega, hcont2⟩

/-! ### Database lemmas -/

theorem dbEvents_append [DecidableEq S] [DecidableEq D]
    (db1 db2 : Db S D E) (s : S) (d : D) :
    dbEvents (db1 ++ db2) s d = dbEvents db1 s d ++ dbEvents db2 s d := by
  unfold dbEvents
  rw [List.filter_append, List.map_append]

theorem dbEvents_cons [DecidableEq S] [DecidableEq D]
    (r : EventRecord S D E) (db : Db S D E) (s : S) (d : D) :
    dbEvents (r :: db) s d
      = if r.stream_id = s ∧ r.device_id = d
        then r.event :: dbEvents db s d else dbEvents db s d := by
  unfold dbEvents
  rw [List.filter_cons]
  by_cases h : r.stream_id = s ∧ r.device_id = d
  · rw [if_pos (by simp [h.1, h.2]), if_pos h, List.map_cons]
  · rw [if_neg ?_, if_neg h]
    rcases not_and_or.mp h with h1 | h1 <;> simp [h1]

theorem dbEvents_block [DecidableEq S] [DecidableEq D]
    (evs : List (Timestamped E)) (s : S) (d : D) (s2 : S) (d2 : D) :
    dbEvents (evs.map (fun e => ({ stream_id := s, device_id := d, event := e } :
        EventRecord S D E))) s2 d2
      = if s2 = s ∧ d2 = d then evs else [] := by
  induction evs with
  | nil => simp [dbEvents]
  | cons e rest ih =>
    rw [List.map_cons, dbEvents_cons]
    by_cases hmatch : s2 = s ∧ d2 = d
    · obtain ⟨rfl, rfl⟩ := hmatch
      have hih := ih
      rw [if_pos ⟨rfl, rfl⟩] at hih
      rw [if_pos ⟨rfl, rfl⟩, if_pos ⟨rfl, rfl⟩, hih]
    · have hc : ¬ (({ stream_id := s, device_id := d, event := e } :
          EventRecord S D E).stream_id = s2
          ∧ ({ stream_id := s, device_id := d, event := e } :
          EventRecord S D E).device_id = d2) :=
        fun hh => hmatch ⟨hh.1.symm, hh.2.symm⟩
      have hih := ih
      rw [if_neg hmatch] at hih
      rw [if_neg hc, if_neg hmatch, hih]

theorem akeys_map_self [DecidableEq K] (g : K → V) (ds : List K) :
    akeys (ds.map (fun x => (x, g x))) = ds := by
  induction ds with
  | nil => rfl
  | cons x rest ih =>
    show x :: akeys (rest.map (fun x => (x, g x))) = x :: rest
    exact congrArg (fun t => x :: t) ih

theorem mem_db_streams_iff [DecidableEq S] [DecidableEq D] (db : Db S D E) (s : S) :
    s ∈ db_streams db ↔ ∃ r ∈ db, r.stream_id = s := by
  unfold db_streams
  rw [mem_dedupFirst]
  constructor
  · intro h
    rcases List.mem_map.mp h with ⟨r, hr, hrs⟩
    exact ⟨r, hr, hrs⟩
  · rintro ⟨r, hr, hrs⟩
    exact List.mem_map.mpr ⟨r, hr, hrs⟩

theorem mem_db_devices_iff [DecidableEq S] [DecidableEq D] (db : Db S D E) (s : S) (d : D) :
    d ∈ db_devices db s ↔ dbEvents db s d ≠ [] := by
  unfold db_devices dbEvents
  rw [mem_dedupFirst]
  constructor
  · intro h
    rcases List.mem_map.mp h with ⟨r, hr, hrd⟩
    rcases List.mem_filter.mp hr with ⟨hrdb, hrs⟩
    intro hnil
    have : r ∈ List.filter
        (fun r => decide (r.stream_id = s) && decide (r.device_id = d)) db := by
      refine List.mem_filter.mpr ⟨hrdb, ?_⟩
      simp only [decide_eq_true_eq] at hrs
      simp [hrs, hrd]
    rw [List.map_eq_nil_iff.mp hnil] at this
    simp at this
  · intro h
    have : List.filter
        (fun r => decide (r.stream_id = s) && decide (r.device_id = d)) db ≠ [] := by
      intro hnil
      rw [hnil] at h
      exact h rfl
    rcases List.exists_mem_of_ne_nil _ this with ⟨r, hr⟩
    rcases List.mem_filter.mp hr with ⟨hrdb, hcond⟩
    rw [Bool.and_eq_true, decide_eq_true_eq, decide_eq_true_eq] at hcond
    refine List.mem_map.mpr ⟨r, List.mem_filter.mpr ⟨hrdb, by simp [hcond.1]⟩, hcond.2⟩

theorem dbEvents_of_not_mem_streams [DecidableEq S] [DecidableEq D]
    {db : Db S D E} {s : S} (h : s ∉ db_streams db) (d : D) : dbEvents db s d = [] := by
  by_contra hne
  have : d ∈ db_devices db s := (mem_db_devices_iff db s d).mpr hne
  rcases List.mem_map.mp ((mem_dedupFirst _ _).mp this) with ⟨r, hr, -⟩
  rcases List.mem_filter.mp hr with ⟨hrdb, hrs⟩
  rw [decide_eq_true_eq] at hrs
  exact h ((mem_db_streams_iff db s).mpr ⟨r, hrdb, hrs⟩)

theorem akeys_get_clock_none [DecidableEq S] [DecidableEq D] (db : Db S D E) :
    akeys (db.get_clock none) = db_streams db := by
  unfold Db.get_clock
  exact akeys_map_self _ _

theorem nodup_db_streams [DecidableEq S] [DecidableEq D] (db : Db S D E) :
    (db_streams db).Nodup := nodup_dedupFirst _

theorem nodup_db_devices [DecidableEq S] [DecidableEq D] (db : Db S D E) (s : S) :
    (db_devices db s).Nodup := nodup_dedupFirst _

theorem wf_clock_get_clock [DecidableEq S] [DecidableEq D]
    (db : Db S D E) (o : Option S) : wf_clock (db.get_clock o) := by
  cases o with
  | some s =>
    refine ⟨by simp [Db.get_clock, akeys], ?_⟩
    intro p hp
    rcases List.mem_singleton.mp hp with rfl
    show (akeys ((db_devices db s).map (fun d => (d, db_count db s d)))).Nodup
    rw [akeys_map_self]
    exact nodup_db_devices db s
  | none =>
    constructor
    · rw [akeys_get_clock_none]
      exact nodup_db_streams db
    · intro p hp
      rcases List.mem_map.mp hp with ⟨s, hs, hps⟩
      rw [← hps]
      show (akeys ((db_devices db s).map (fun d => (d, db_count db s d)))).Nodup
      rw [akeys_map_self]
      exact nodup_db_devices db s

/-! ### Effects of add_device_events -/

theorem goi_fields [DecidableEq S] (st : EventStore S D E) (stream : S) :
    (st.get_or_insert_default stream).sync_states = st.sync_states
  ∧ (st.get_or_insert_default stream).listeners = st.listeners := by
  unfold EventStore.get_or_insert_default
  split <;> exact ⟨rfl, rfl⟩

theorem alookup_goi_ne [DecidableEq S] {st : EventStore S D E} {stream s2 : S}
    (h : s2 ≠ stream) :
    alookup s2 (st.get_or_insert_default stream).streams = alookup s2 st.streams := by
  cases hl : alookup stream st.streams with
  | some tr => rw [goi_present (by rw [hl]; rfl)]
  | none =>
    rw [goi_absent hl]
    show alookup s2 (st.streams ++ _) = _
    rw [alookup_append]
    have h2 : alookup s2
        [(stream, DirtyTracker.default (EventStreamStore.default : EventStreamStore D E))]
        = none := by simp [alookup, h]
    rw [h2]
    cases alookup s2 st.streams <;> rfl

theorem mem_aupdate [DecidableEq K] {q : K × V} {k : K} {f : Option V → V}
    {l : List (K × V)} (h : q ∈ aupdate k f l) :
    q ∈ l ∨ q = (k, f (alookup k l)) := by
  induction l with
  | nil =>
    rcases List.mem_singleton.mp h with rfl
    exact Or.inr rfl
  | cons p rest ih =>
    obtain ⟨k1, v1⟩ := p
    by_cases hk : k = k1
    · subst hk
      rw [show aupdate k (fun o => f o) ((k, v1) :: rest)
            = (k, f (some v1)) :: rest from by simp [aupdate]] at h
      rcases List.mem_cons.mp h with rfl | h
      · right
        simp [alookup]
      · exact Or.inl (List.mem_cons_of_mem _ h)
    · rw [show aupdate k (fun o => f o) ((k1, v1) :: rest)
            = (k1, v1) :: aupdate k (fun o => f o) rest from by simp [aupdate, hk]] at h
      rcases List.mem_cons.mp h with rfl | h
      · exact Or.inl (List.mem_cons_self _ _)
      · rcases ih h with h2 | h2
        · exact Or.inl (List.mem_cons_of_mem _ h2)
        · right
          rw [h2]
          simp [alookup, hk]

theorem akeys_aupdate [DecidableEq K] (k : K) (f : Option V → V) (l : List (K × V)) :
    akeys (aupdate k f l) = if k ∈ akeys l then akeys l else akeys l ++ [k] := by
  by_cases h : k ∈ akeys l
  · rw [if_pos h, akeys_aupdate_mem f h]
  · rw [if_neg h]
    induction l with
    | nil => rfl
    | cons p rest ih =>
      obtain ⟨k1, v1⟩ := p
      have hk : k ≠ k1 := by
        intro hkk
        exact h (by simp [akeys, hkk])
      have h2 : k ∉ akeys rest := by
        intro hm
        exact h (by simp [akeys] at *; exact Or.inr hm)
      rw [show aupdate k f ((k1, v1) :: rest) = (k1, v1) :: aupdate k f rest from by
            simp [aupdate, hk]]
      show k1 :: akeys (aupdate k f rest) = (k1 :: akeys rest) ++ [k]
      rw [ih h2]
      rfl

theorem wf_goi [DecidableEq S] {st : EventStore S D E} (stream : S)
    (hwf : wf_event_store st) : wf_event_store (st.get_or_insert_default stream) := by
  cases hl : alookup stream st.streams with
  | some tr => rw [goi_present (by rw [hl]; rfl)]; exact hwf
  | none =>
    rw [goi_absent hl]
    obtain ⟨hk, hi⟩ := hwf
    constructor
    · show (akeys (st.streams ++ [(stream, _)])).Nodup
      unfold akeys
      rw [List.map_append]
      refine List.nodup_append.mpr ⟨hk, List.nodup_singleton _, ?_⟩
      intro a ha hb
      rcases List.mem_singleton.mp hb with rfl
      exact ((alookup_eq_none_iff a st.streams).mp hl) ha
    · intro p hp
      rcases List.mem_append.mp hp with hp | hp
      · exact hi p hp
      · rcases List.mem_singleton.mp hp with rfl
        refine ⟨List.nodup_nil, fun q hq => ?_⟩
        rw [show (DirtyTracker.default
              (EventStreamStore.default : EventStreamStore D E)).store = [] from rfl] at hq
        simp at hq

theorem load_len_eq [DecidableEq S] [DecidableEq D]
    (st : EventStore S D E) (stream : S) (d : D) :
    (match alookup stream st.streams with
     | some tr => tr.store.len_device d
     | none => 0) = (st.eventsOf stream d).length := by
  cases h : alookup stream st.streams with
  | some tr =>
    show tr.store.len_device d = _
    unfold EventStreamStore.len_device EventStore.eventsOf
    rw [h]
  | none =>
    show 0 = _
    unfold EventStore.eventsOf
    rw [h]
    rfl

theorem eventsOf_aupdate_const [DecidableEq S] [DecidableEq D]
    (st : EventStore S D E) (stream : S) (tr2 : DirtyTracker (EventStreamStore D E))
    (s2 : S) (d2 : D) :
    EventStore.eventsOf
        { st with streams := aupdate stream (fun _ => tr2) st.streams } s2 d2
      = if s2 = stream then (alookup d2 tr2.store).getD [] else st.eventsOf s2 d2 := by
  unfold EventStore.eventsOf
  by_cases hs : s2 = stream
  · subst hs
    rw [if_pos rfl]
    show (match alookup s2 (aupdate s2 (fun _ => tr2) st.streams) with
          | some tr => (alookup d2 tr.store).getD []
          | none => ([] : List (Timestamped E))) = (alookup d2 tr2.store).getD []
    rw [alookup_aupdate_self]
  · rw [if_neg hs]
    show (match alookup s2 (aupdate stream (fun _ => tr2) st.streams) with
          | some tr => (alookup d2 tr.store).getD []
          | none => ([] : List (Timestamped E))) = _
    rw [alookup_aupdate_ne _ _ hs]

theorem add_device_events_spec [DecidableEq S] [DecidableEq D]
    (st : EventStore S D E) (stream : S) (device : D) (batch : List (Timestamped E))
    (m : Option ListenerKey) :
    ((st.add_device_events stream device batch m).2.sync_states = st.sync_states)
  ∧ ((st.add_device_events stream device batch m).2.listeners = st.listeners)
  ∧ (valid_batch_shape (st.eventsOf stream device).length batch = true →
       ∀ d2, (st.add_device_events stream device batch m).2.eventsOf stream d2
          = if d2 = device then st.eventsOf stream device ++ batch
            else st.eventsOf stream d2)
  ∧ (valid_batch_shape (st.eventsOf stream device).length batch = false →
       (st.add_device_events stream device batch m).2 = st.get_or_insert_default stream)
  ∧ (∀ s2, s2 ≠ stream → ∀ d2,
       (st.add_device_events stream device batch m).2.eventsOf s2 d2
         = st.eventsOf s2 d2) := by
  obtain ⟨tr, hlk, hev⟩ := alookup_goi_self st stream
  have hlen : tr.store.len_device device = (st.eventsOf stream device).length := by
    unfold EventStreamStore.len_device
    rw [hev device]
  cases hvb : valid_batch_shape (st.eventsOf stream device).length batch with
  | false =>
    have hvalid : tr.store.valid_to_add_events device batch = none := by
      unfold EventStreamStore.valid_to_add_events
      rw [hlen, hvb]
      rfl
    have hres : st.add_device_events stream device batch m
        = (0, st.get_or_insert_default stream) := by
      unfold EventStore.add_device_events
      simp only [hlk, hvalid]
    rw [hres]
    refine ⟨(goi_fields st stream).1, (goi_fields st stream).2,
            fun hc => absurd hc (by simp), fun _ => rfl, fun s2 hs2 d2 => ?_⟩
    exact eventsOf_goi st stream s2 d2
  | true =>
    have hvalid : tr.store.valid_to_add_events device batch = some batch := by
      unfold EventStreamStore.valid_to_add_events
      rw [hlen, hvb]
      rfl
    have hres : st.add_device_events stream device batch m
        = (batch.length,
           { st.get_or_insert_default stream with
             streams := aupdate stream (fun _ =>
               { store := tr.store.add_device_events device batch,
                 dirty_state := mark_dirty tr.dirty_state m,
                 loaded_at_least_once := tr.loaded_at_least_once })
               (st.get_or_insert_default stream).streams }) := by
      unfold EventStore.add_device_events
      simp only [hlk, hvalid]
    rw [hres]
    refine ⟨(goi_fields st stream).1, (goi_fields st stream).2,
            fun _ d2 => ?_, fun hc => absurd hc (by simp),
            fun s2 hs2 d2 => ?_⟩
    · rw [eventsOf_aupdate_const, if_pos rfl]
      show (alookup d2 (tr.store.add_device_events device batch)).getD [] = _
      unfold EventStreamStore.add_device_events
      by_cases hd : d2 = device
      · subst hd
        rw [alookup_aupdate_self, if_pos rfl]
        show (alookup d2 tr.store).getD [] ++ batch = _
        rw [hev d2]
      · rw [alookup_aupdate_ne _ _ hd, if_neg hd, hev d2]
    · rw [eventsOf_aupdate_const, if_neg hs2]
      exact eventsOf_goi st stream s2 d2

theorem wf_add_device_events [DecidableEq S] [DecidableEq D]
    {st : EventStore S D E} {stream : S} {device : D} {batch : List (Timestamped E)}
    {m : Option ListenerKey} (hwf : wf_event_store st) :
    wf_event_store (st.add_device_events stream device batch m).2 := by
  obtain ⟨tr, hlk, hev⟩ := alookup_goi_self st stream
  have hwf1 : wf_event_store (st.get_or_insert_default stream) := wf_goi stream hwf
  cases hvalid : tr.store.valid_to_add_events device batch with
  | none =>
    have hres : (st.add_device_events stream device batch m).2
        = st.get_or_insert_default stream := by
      unfold EventStore.add_device_events
      simp only [hlk, hvalid]
    rw [hres]
    exact hwf1
  | some valid =>
    have hvb2 : valid_batch_shape (tr.store.len_device device) batch = true
        ∧ valid = batch := by
      unfold EventStreamStore.valid_to_add_events at hvalid
      by_cases h : valid_batch_shape (tr.store.len_device device) batch = true
      · rw [if_pos h] at hvalid
        injection hvalid with h2
        exact ⟨h, h2.symm⟩
      · rw [if_neg h] at hvalid
        exact absurd hvalid (by simp)
    obtain ⟨hvb0, hveq⟩ := hvb2
    rw [hveq] at hvalid
    have hvb : valid_batch_shape (tr.store.len_device device) batch = true := hvb0
    have hres : (st.add_device_events stream device batch m).2
        = { st.get_or_insert_default stream with
            streams := aupdate stream (fun _ =>
              { store := tr.store.add_device_events device batch,
                dirty_state := mark_dirty tr.dirty_state m,
                loaded_at_least_once := tr.loaded_at_least_once })
              (st.get_or_insert_default stream).streams } := by
      unfold EventStore.add_device_events
      simp only [hlk, hvalid]
    rw [hres]
    obtain ⟨hk1, hi1⟩ := hwf1
    constructor
    · show (akeys (aupdate stream _ _)).Nodup
      rw [akeys_aupdate_mem _ ((alookup_isSome_iff _ _).mp (by rw [hlk]; rfl))]
      exact hk1
    · intro p hp
      rcases mem_aupdate hp with hp2 | hp2
      · exact hi1 p hp2
      · rw [hp2]
        show wf_stream_store (tr.store.add_device_events device batch)
        have hwftr : wf_stream_store tr.store :=
          hi1 (stream, tr) (mem_of_alookup_eq_some hlk)
        obtain ⟨hk2, hi2⟩ := hwftr
        unfold EventStreamStore.add_device_events
        constructor
        · rw [akeys_aupdate]
          by_cases hmem : device ∈ akeys tr.store
          · rw [if_pos hmem]
            exact hk2
          · rw [if_neg hmem]
            refine List.nodup_append.mpr ⟨hk2, List.nodup_singleton _, ?_⟩
            intro a2 ha2 hb2
            rcases List.mem_singleton.mp hb2 with rfl
            exact hmem ha2
        · intro q hq
          rcases mem_aupdate hq with hq2 | hq2
          · exact hi2 q hq2
          · rw [hq2]
            show indexed_from 0 ((alookup device tr.store).getD [] ++ batch)
            have hidx : indexed_from 0 ((alookup device tr.store).getD []) := by
              cases hdl : alookup device tr.store with
              | some evs =>
                simpa using hi2 (device, evs) (mem_of_alookup_eq_some hdl)
              | none => simp [indexed_from]
            refine indexed_from_append hidx ?_
            have hb : indexed_from (tr.store.len_device device) batch :=
              valid_batch_shape_indexed hvb
            unfold EventStreamStore.len_device at hb
            simpa using hb

/-! ### Sync helpers: fold identities and small facts -/

theorem load_eq_foldl [DecidableEq S] [DecidableEq D]
    (st : EventStore S D E) (db : Db S D E) (s : S) (m : Option ListenerKey) :
    load_from_indexeddb st db s m
      = (db.get_all_stream_events s).foldl (load_step s m) st := rfl

theorem save_eq_foldl [DecidableEq S] [DecidableEq D]
    (st : EventStore S D E) (db : Db S D E) (s : S) :
    save_to_indexeddb st db s
      = match alookup s st.vector_clock with
        | none => (0, db)
        | some dm =>
          dm.foldl (save_step st s ((alookup s (db.get_clock (some s))).getD [])) (0, db) := by
  unfold save_to_indexeddb
  cases alookup s st.vector_clock <;> rfl

theorem foldl_fixed_at {A : Type*} {B : Type*} {f : A → B → A} {l : List B} {a : A}
    (h : ∀ x ∈ l, f a x = a) : l.foldl f a = a := by
  induction l with
  | nil => rfl
  | cons x rest ih =>
    rw [List.foldl_cons, h x (List.mem_cons_self _ _)]
    exact ih (fun y hy => h y (List.mem_cons_of_mem _ hy))

theorem eventsOf_indexed [DecidableEq S] [DecidableEq D]
    {st : EventStore S D E} (hwf : wf_event_store st) (s : S) (d : D) :
    indexed_from 0 (st.eventsOf s d) := by
  unfold EventStore.eventsOf
  cases h : alookup s st.streams with
  | none => trivial
  | some tr =>
    show indexed_from 0 ((alookup d tr.store).getD [])
    cases h2 : alookup d tr.store with
    | none => trivial
    | some evs =>
      show indexed_from 0 evs
      exact (hwf.2 (s, tr) (mem_of_alookup_eq_some h)).2 (d, evs) (mem_of_alookup_eq_some h2)

theorem eventsOf_absent [DecidableEq S] [DecidableEq D]
    {st : EventStore S D E} {s : S} (h : s ∉ akeys st.streams) (d : D) :
    st.eventsOf s d = [] := by
  unfold EventStore.eventsOf
  rw [(alookup_eq_none_iff s st.streams).mpr h]

theorem dbEvents_ne_nil_of_mem_streams [DecidableEq S] [DecidableEq D]
    {db : Db S D E} {s : S} (h : s ∈ db_streams db) :
    ∃ d, dbEvents db s d ≠ [] := by
  rcases (mem_db_streams_iff db s).mp h with ⟨r, hr, hrs⟩
  refine ⟨r.device_id, fun hnil => ?_⟩
  have hmem : r.event ∈ dbEvents db s r.device_id := by
    unfold dbEvents
    exact List.mem_map.mpr ⟨r, List.mem_filter.mpr ⟨hr, by simp [hrs]⟩, rfl⟩
  rw [hnil] at hmem
  simp at hmem

theorem events_to_write_eq [DecidableEq S] [DecidableEq D]
    (st : EventStore S D E) (s : S) (d : D) (c : Nat) :
    events_to_write_def st s d c
      = (st.eventsOf s d).filter (fun e => decide (c ≤ e.within_device_events_index)) := by
  unfold events_to_write_def EventStore.eventsOf
  cases alookup s st.streams with
  | none => rfl
  | some tr =>
    show (match alookup d tr.store with
          | none => ([] : List (Timestamped E))
          | some evs =>
            evs.filter (fun e => decide (c ≤ e.within_device_events_index)))
        = ((alookup d tr.store).getD []).filter
            (fun e => decide (c ≤ e.within_device_events_index))
    cases alookup d tr.store with
    | none => rfl
    | some evs => rfl

theorem clock_some_count [DecidableEq S] [DecidableEq D]
    (db : Db S D E) (s : S) (d : D) :
    (alookup d ((alookup s (db.get_clock (some s))).getD [])).getD 0 = db_count db s d := by
  have h1 : alookup s (db.get_clock (some s))
      = some ((db_devices db s).map (fun d2 => (d2, db_count db s d2))) := by
    unfold Db.get_clock
    simp [alookup]
  rw [h1]
  show (alookup d ((db_devices db s).map (fun d2 => (d2, db_count db s d2)))).getD 0 = _
  rw [alookup_map_self]
  by_cases hd : d ∈ db_devices db s
  · rw [if_pos hd]
    rfl
  · rw [if_neg hd]
    have : dbEvents db s d = [] := by
      by_contra hne
      exact hd ((mem_db_devices_iff db s d).mpr hne)
    show 0 = db_count db s d
    unfold db_count
    rw [this]
    rfl

theorem foldl_add_event [DecidableEq S] [DecidableEq D]
    (s : S) (d : D) :
    ∀ (evs : List (Timestamped E)) (db0 : Db S D E),
    evs.foldl (fun db2 e => Db.add_event db2 s d e) db0
      = db0 ++ evs.map (fun e => { stream_id := s, device_id := d, event := e }) := by
  intro evs
  induction evs with
  | nil => intro db0; simp
  | cons e rest ih =>
    intro db0
    rw [List.foldl_cons, ih]
    show (db0 ++ [_]) ++ _ = _
    rw [List.append_assoc]
    rfl

theorem akeys_map_fst {K V W : Type} (g : V → W) (l : List (K × V)) :
    akeys (l.map (fun p => (p.1, g p.2))) = akeys l := by
  unfold akeys
  rw [List.map_map]
  rfl

/-! ### The load phase: effect on the in-memory store -/

theorem load_fold_spec [DecidableEq S] [DecidableEq D] (s : S) (m : Option ListenerKey) :
    ∀ (ps : List (D × List (Timestamped E))) (st : EventStore S D E),
    wf_event_store st → (∀ p ∈ ps, indexed_from 0 p.2) → (akeys ps).Nodup →
    wf_event_store (ps.foldl (load_step s m) st)
    ∧ (∀ d2 evs2, (d2, evs2) ∈ ps →
        (ps.foldl (load_step s m) st).eventsOf s d2
          = st.eventsOf s d2 ++ evs2.drop (st.eventsOf s d2).length)
    ∧ (∀ d2, d2 ∉ akeys ps →
        (ps.foldl (load_step s m) st).eventsOf s d2 = st.eventsOf s d2)
    ∧ (∀ s2, s2 ≠ s → ∀ d2,
        (ps.foldl (load_step s m) st).eventsOf s2 d2 = st.eventsOf s2 d2) := by
  intro ps
  induction ps with
  | nil =>
    intro st hwf _ _
    exact ⟨hwf, by intro d2 evs2 h; simp at h, fun _ _ => rfl, fun _ _ _ => rfl⟩
  | cons p rest ih =>
    obtain ⟨d, evs⟩ := p
    intro st hwf hidx hnd
    have hindexed : indexed_from 0 evs := hidx (d, evs) (List.mem_cons_self _ _)
    have hndc : d ∉ akeys rest ∧ (akeys rest).Nodup := by
      rw [show akeys ((d, evs) :: rest) = d :: akeys rest from rfl] at hnd
      exact List.nodup_cons.mp hnd
    have hstep : load_step s m st (d, evs)
        = (st.add_device_events s d
            (evs.filter (fun e =>
              decide ((st.eventsOf s d).length ≤ e.within_device_events_index))) m).2 := by
      show (st.add_device_events s d
            (evs.filter (fun e =>
              decide ((match alookup s st.streams with
                       | some tr => tr.store.len_device d
                       | none => 0) ≤ e.within_device_events_index))) m).2 = _
      rw [load_len_eq]
    have hfresh : evs.filter (fun e =>
          decide ((st.eventsOf s d).length ≤ e.within_device_events_index))
        = evs.drop (st.eventsOf s d).length := by
      rw [indexed_from_filter_drop hindexed, Nat.sub_zero]
    have hfacts :
        wf_event_store (st.add_device_events s d
            (evs.drop (st.eventsOf s d).length) m).2
      ∧ (∀ d2, d2 ≠ d →
          ((st.add_device_events s d (evs.drop (st.eventsOf s d).length) m).2).eventsOf s d2
            = st.eventsOf s d2)
      ∧ ((st.add_device_events s d (evs.drop (st.eventsOf s d).length) m).2).eventsOf s d
          = st.eventsOf s d ++ evs.drop (st.eventsOf s d).length
      ∧ (∀ s2, s2 ≠ s → ∀ d2,
          ((st.add_device_events s d (evs.drop (st.eventsOf s d).length) m).2).eventsOf s2 d2
            = st.eventsOf s2 d2) := by
      cases hf : evs.drop (st.eventsOf s d).length with
      | nil =>
        have h4 := (add_device_events_spec st s d [] m).2.2.2.1 rfl
        rw [h4]
        exact ⟨wf_goi s hwf,
               fun d2 _ => eventsOf_goi st s s d2,
               by rw [eventsOf_goi]; exact (List.append_nil _).symm,
               fun s2 _ d2 => eventsOf_goi st s s2 d2⟩
      | cons f0 frest =>
        have hvb : valid_batch_shape (st.eventsOf s d).length (f0 :: frest) = true := by
          have hidx2 : indexed_from (0 + (st.eventsOf s d).length)
              (evs.drop (st.eventsOf s d).length) :=
            indexed_from_drop _ hindexed
          rw [hf, Nat.zero_add] at hidx2
          exact valid_batch_shape_of_indexed (by simp) hidx2
        obtain spec := add_device_events_spec st s d (f0 :: frest) m
        refine ⟨wf_add_device_events hwf, fun d2 hd2 => ?_, ?_, spec.2.2.2.2⟩
        · rw [spec.2.2.1 hvb d2, if_neg hd2]
        · rw [spec.2.2.1 hvb d, if_pos rfl]
    rw [List.foldl_cons, hstep, hfresh]
    obtain ⟨hwf1, hsame, hdd, hoth1⟩ := hfacts
    obtain ⟨ihwf, ihmem, ihout, ihoth⟩ :=
      ih _ hwf1 (fun q hq => hidx q (List.mem_cons_of_mem _ hq)) hndc.2
    refine ⟨ihwf, ?_, ?_, ?_⟩
    · intro d2 evs2 hmem2
      rcases List.mem_cons.mp hmem2 with heq | hmem3
      · have h1 : d2 = d := congrArg Prod.fst heq
        have h2 : evs2 = evs := congrArg Prod.snd heq
        subst h1
        subst h2
        rw [ihout d2 hndc.1, hdd]
      · have hd2ne : d2 ≠ d := by
          intro he
          exact hndc.1 (he ▸ List.mem_map.mpr ⟨(d2, evs2), hmem3, rfl⟩)
        rw [ihmem d2 evs2 hmem3, hsame d2 hd2ne]
    · intro d2 hni
      rw [show akeys ((d, evs) :: rest) = d :: akeys rest from rfl] at hni
      have h1 : d2 ≠ d := fun he => hni (he ▸ List.mem_cons_self _ _)
      have h2 : d2 ∉ akeys rest := fun hm => hni (List.mem_cons_of_mem _ hm)
      rw [ihout d2 h2, hsame d2 h1]
    · intro s2 hs2 d2
      rw [ihoth s2 hs2 d2, hoth1 s2 hs2 d2]

theorem load_spec [DecidableEq S] [DecidableEq D]
    (st : EventStore S D E) (db : Db S D E) (s : S) (m : Option ListenerKey)
    (hwf : wf_event_store st) (hdb : wf_db db) :
    wf_event_store (load_from_indexeddb st db s m)
    ∧ ∀ s2 d2, (load_from_indexeddb st db s m).eventsOf s2 d2
        = if s2 = s
          then st.eventsOf s2 d2 ++ (dbEvents db s2 d2).drop (st.eventsOf s2 d2).length
          else st.eventsOf s2 d2 := by
  rw [load_eq_foldl]
  have hyps1 : ∀ p ∈ db.get_all_stream_events s, indexed_from 0 p.2 := by
    intro p hp
    rcases List.mem_map.mp hp with ⟨d, hd, hpd⟩
    rw [← hpd]
    exact hdb s d
  have hyps2 : (akeys (db.get_all_stream_events s)).Nodup := by
    unfold Db.get_all_stream_events
    rw [akeys_map_self]
    exact nodup_db_devices db s
  obtain ⟨hwfF, hmem, hout, hoth⟩ :=
    load_fold_spec s m (db.get_all_stream_events s) st hwf hyps1 hyps2
  refine ⟨hwfF, fun s2 d2 => ?_⟩
  by_cases hs2 : s2 = s
  · subst hs2
    rw [if_pos rfl]
    by_cases hd2 : d2 ∈ db_devices db s2
    · exact hmem d2 (dbEvents db s2 d2) (List.mem_map.mpr ⟨d2, hd2, rfl⟩)
    · have hnil : dbEvents db s2 d2 = [] := by
        by_contra hne
        exact hd2 ((mem_db_devices_iff db s2 d2).mpr hne)
      rw [hnil, List.drop_nil, List.append_nil]
      apply hout
      unfold Db.get_all_stream_events
      rw [akeys_map_self]
      exact hd2
  · rw [if_neg hs2]
    exact hoth s2 hs2 d2

theorem loads_spec [DecidableEq S] [DecidableEq D]
    (db : Db S D E) (m : Option ListenerKey) :
    ∀ (ss : List S), ss.Nodup → ∀ (st : EventStore S D E),
    wf_event_store st → wf_db db →
    wf_event_store (ss.foldl (fun acc s => load_from_indexeddb acc db s m) st)
    ∧ (∀ s ∈ ss, ∀ d,
        (ss.foldl (fun acc s => load_from_indexeddb acc db s m) st).eventsOf s d
          = st.eventsOf s d ++ (dbEvents db s d).drop (st.eventsOf s d).length)
    ∧ (∀ s, s ∉ ss → ∀ d,
        (ss.foldl (fun acc s => load_from_indexeddb acc db s m) st).eventsOf s d
          = st.eventsOf s d) := by
  intro ss
  induction ss with
  | nil =>
    intro _ st hwf _
    exact ⟨hwf, by intro s h; simp at h, fun _ _ _ => rfl⟩
  | cons s0 rest ih =>
    intro hnd st hwf hdb
    obtain ⟨hs0, hndr⟩ := List.nodup_cons.mp hnd
    obtain ⟨hwf1, hone⟩ := load_spec st db s0 m hwf hdb
    obtain ⟨ihwf, ihmem, ihout⟩ := ih hndr (load_from_indexeddb st db s0 m) hwf1 hdb
    rw [List.foldl_cons]
    refine ⟨ihwf, ?_, ?_⟩
    · intro s hs d
      rcases List.mem_cons.mp hs with rfl | hs
      · rw [ihout s hs0 d, hone s d, if_pos rfl]
      · have hsne : s ≠ s0 := fun he => hs0 (he ▸ hs)
        rw [ihmem s hs d, hone s d, if_neg hsne]
    · intro s hs d
      have h1 : s ≠ s0 := fun he => hs (he ▸ List.mem_cons_self _ _)
      have h2 : s ∉ rest := fun hm => hs (List.mem_cons_of_mem _ hm)
      rw [ihout s h2 d, hone s d, if_neg h1]

/-! ### The save phase: effect on the database -/

theorem alookup_vector_clock [DecidableEq S]
    (st : EventStore S D E) (s : S) :
    alookup s st.vector_clock
      = (alookup s st.streams).map (fun tr => tr.store.num_events_per_device) :=
  alookup_map_val
    (fun tr : DirtyTracker (EventStreamStore D E) => tr.store.num_events_per_device)
    s st.streams

theorem save_fold_db [DecidableEq S] [DecidableEq D]
    (st : EventStore S D E) (s : S) (counts : List (D × Nat)) :
    ∀ (dm : List (D × Nat)) (acc : Nat × Db S D E),
    (dm.foldl (save_step st s counts) acc).2
      = acc.2 ++ dm.flatMap (fun p =>
          ((st.eventsOf s p.1).filter (fun e =>
            decide ((alookup p.1 counts).getD 0 ≤ e.within_device_events_index))).map
            (fun e => { stream_id := s, device_id := p.1, event := e })) := by
  intro dm
  induction dm with
  | nil => intro acc; simp
  | cons p rest ih =>
    intro acc
    have hstep : save_step st s counts acc p
        = (acc.1 + ((st.eventsOf s p.1).filter (fun e =>
            decide ((alookup p.1 counts).getD 0 ≤ e.within_device_events_index))).length,
           acc.2 ++ ((st.eventsOf s p.1).filter (fun e =>
            decide ((alookup p.1 counts).getD 0 ≤ e.within_device_events_index))).map
            (fun e => { stream_id := s, device_id := p.1, event := e })) := by
      unfold save_step
      rw [events_to_write_eq, foldl_add_event]
    rw [List.foldl_cons, hstep, ih, List.flatMap_cons, List.append_assoc]

theorem dbEvents_flatMap_blocks [DecidableEq S] [DecidableEq D]
    (s : S) (w : D → List (Timestamped E)) :
    ∀ (dm : List (D × Nat)), (akeys dm).Nodup → ∀ (s2 : S) (d2 : D),
    dbEvents (dm.flatMap (fun p => (w p.1).map
        (fun e => { stream_id := s, device_id := p.1, event := e }))) s2 d2
      = if s2 = s ∧ d2 ∈ akeys dm then w d2 else [] := by
  intro dm
  induction dm with
  | nil =>
    intro _ s2 d2
    rw [List.flatMap_nil, if_neg (fun hc => by simp [akeys] at hc)]
    rfl
  | cons p rest ih =>
    intro hnd s2 d2
    have hndc : p.1 ∉ akeys rest ∧ (akeys rest).Nodup := by
      rw [show akeys (p :: rest) = p.1 :: akeys rest from rfl] at hnd
      exact List.nodup_cons.mp hnd
    rw [List.flatMap_cons, dbEvents_append, dbEvents_block, ih hndc.2 s2 d2]
    by_cases hs2 : s2 = s
    · subst hs2
      by_cases hd2 : d2 = p.1
      · subst hd2
        rw [if_pos ⟨rfl, rfl⟩, if_neg (fun hc => hndc.1 hc.2),
            if_pos ⟨rfl, List.mem_cons_self _ _⟩, List.append_nil]
      · rw [if_neg (fun hc => hd2 hc.2)]
        by_cases hm : d2 ∈ akeys rest
        · rw [if_pos ⟨rfl, hm⟩, if_pos ⟨rfl, List.mem_cons_of_mem _ hm⟩, List.nil_append]
        · rw [if_neg (fun hc => hm hc.2),
              if_neg (fun hc => (List.mem_cons.mp hc.2).elim hd2 hm)]
          rfl
    · rw [if_neg (fun hc => hs2 hc.1), if_neg (fun hc => hs2 hc.1),
          if_neg (fun hc => hs2 hc.1)]
      rfl

theorem save_db_spec [DecidableEq S] [DecidableEq D]
    {st : EventStore S D E} (hwf : wf_event_store st) (db : Db S D E) (s : S) :
    ∀ s2 d2, dbEvents (save_to_indexeddb st db s).2 s2 d2
      = if s2 = s
        then dbEvents db s2 d2 ++ (st.eventsOf s2 d2).drop (db_count db s2 d2)
        else dbEvents db s2 d2 := by
  intro s2 d2
  rw [save_eq_foldl]
  cases hvc : alookup s st.vector_clock with
  | none =>
    have habs : alookup s st.streams = none := by
      rw [alookup_vector_clock] at hvc
      cases h : alookup s st.streams with
      | none => rfl
      | some tr => rw [h] at hvc; exact absurd hvc (by simp)
    show dbEvents db s2 d2 = _
    by_cases hs2 : s2 = s
    · subst hs2
      have hev : st.eventsOf s2 d2 = [] := by
        unfold EventStore.eventsOf
        rw [habs]
      rw [if_pos rfl, hev, List.drop_nil, List.append_nil]
    · rw [if_neg hs2]
  | some dm =>
    have hex : ∃ tr, alookup s st.streams = some tr
        ∧ dm = tr.store.num_events_per_device := by
      rw [alookup_vector_clock] at hvc
      cases h : alookup s st.streams with
      | none => rw [h] at hvc; exact absurd hvc (by simp)
      | some tr =>
        rw [h] at hvc
        refine ⟨tr, rfl, ?_⟩
        have h2 : some tr.store.num_events_per_device = some dm := hvc
        injection h2 with h3
        exact h3.symm
    obtain ⟨tr, htr, hdm⟩ := hex
    have hndm : (akeys dm).Nodup := by
      rw [hdm]
      show (akeys (tr.store.map (fun q => (q.1, q.2.length)))).Nodup
      rw [akeys_map_fst]
      exact ((hwf.2 (s, tr) (mem_of_alookup_eq_some htr))).1
    show dbEvents ((dm.foldl (save_step st s
          ((alookup s (db.get_clock (some s))).getD [])) ((0 : Nat), db)).2) s2 d2 = _
    rw [save_fold_db st s ((alookup s (db.get_clock (some s))).getD []) dm ((0 : Nat), db)]
    rw [dbEvents_append,
        dbEvents_flatMap_blocks s (fun d => (st.eventsOf s d).filter (fun e =>
          decide ((alookup d ((alookup s (db.get_clock (some s))).getD [])).getD 0
            ≤ e.within_device_events_index))) dm hndm s2 d2]
    by_cases hs2 : s2 = s
    · subst hs2
      rw [if_pos rfl]
      by_cases hd2 : d2 ∈ akeys dm
      · rw [if_pos ⟨rfl, hd2⟩]
        have hfd : (st.eventsOf s2 d2).filter (fun e =>
            decide ((alookup d2 ((alookup s2 (db.get_clock (some s2))).getD [])).getD 0
              ≤ e.within_device_events_index))
            = (st.eventsOf s2 d2).drop (db_count db s2 d2) := by
          rw [clock_some_count db s2 d2,
              indexed_from_filter_drop (eventsOf_indexed hwf s2 d2), Nat.sub_zero]
        rw [hfd]
      · rw [if_neg (fun hc => hd2 hc.2)]
        have hev : st.eventsOf s2 d2 = [] := by
          unfold EventStore.eventsOf
          rw [htr]
          show (alookup d2 tr.store).getD [] = []
          rw [(alookup_eq_none_iff d2 tr.store).mpr (fun hmem => hd2 (by
            rw [hdm]
            show d2 ∈ akeys (tr.store.map (fun q => (q.1, q.2.length)))
            rw [akeys_map_fst]
            exact hmem))]
          rfl
        rw [hev, List.drop_nil]
    · rw [if_neg (fun hc => hs2 hc.1), if_neg hs2, List.append_nil]

theorem save_wf_db [DecidableEq S] [DecidableEq D]
    {st : EventStore S D E} (hwf : wf_event_store st) {db : Db S D E} (hdb : wf_db db)
    (s : S) : wf_db (save_to_indexeddb st db s).2 := by
  intro s2 d2
  rw [save_db_spec hwf db s s2 d2]
  by_cases hs2 : s2 = s
  · rw [if_pos hs2]
    refine indexed_from_append (hdb s2 d2) ?_
    have h2 := indexed_from_drop (db_count db s2 d2) (eventsOf_indexed hwf s2 d2)
    rw [Nat.zero_add] at h2
    rw [Nat.zero_add]
    show indexed_from (db_count db s2 d2) _
    exact h2
  · rw [if_neg hs2]
    exact hdb s2 d2

theorem saves_db_spec [DecidableEq S] [DecidableEq D]
    {st : EventStore S D E} (hwf : wf_event_store st) :
    ∀ (ss : List S), ss.Nodup → ∀ (acc : Nat × Db S D E), wf_db acc.2 →
    wf_db ((ss.foldl (fun acc2 s =>
        let r := save_to_indexeddb st acc2.2 s
        (acc2.1 + r.1, r.2)) acc).2)
    ∧ ∀ s2 d2, dbEvents ((ss.foldl (fun acc2 s =>
        let r := save_to_indexeddb st acc2.2 s
        (acc2.1 + r.1, r.2)) acc).2) s2 d2
      = if s2 ∈ ss
        then dbEvents acc.2 s2 d2 ++ (st.eventsOf s2 d2).drop (db_count acc.2 s2 d2)
        else dbEvents acc.2 s2 d2 := by
  intro ss
  induction ss with
  | nil =>
    intro _ acc hdb
    exact ⟨hdb, fun s2 d2 => (if_neg (by simp)).symm⟩
  | cons s0 rest ih =>
    intro hnd acc hdb
    obtain ⟨hs0, hndr⟩ := List.nodup_cons.mp hnd
    have hwfdb1 : wf_db (save_to_indexeddb st acc.2 s0).2 := save_wf_db hwf hdb s0
    obtain ⟨ihwf, ihev⟩ := ih hndr
      (acc.1 + (save_to_indexeddb st acc.2 s0).1, (save_to_indexeddb st acc.2 s0).2) hwfdb1
    refine ⟨ihwf, fun s2 d2 => ?_⟩
    refine Eq.trans (ihev s2 d2) ?_
    by_cases h1 : s2 ∈ rest
    · rw [if_pos h1, if_pos (List.mem_cons_of_mem _ h1)]
      have hne : s2 ≠ s0 := fun he => hs0 (he ▸ h1)
      have hev : dbEvents (save_to_indexeddb st acc.2 s0).2 s2 d2
          = dbEvents acc.2 s2 d2 := by
        rw [save_db_spec hwf acc.2 s0 s2 d2, if_neg hne]
      have hcnt : db_count (save_to_indexeddb st acc.2 s0).2 s2 d2
          = db_count acc.2 s2 d2 := by
        unfold db_count
        rw [hev]
      rw [hev, hcnt]
    · by_cases h0 : s2 = s0
      · subst h0
        rw [if_neg h1, if_pos (List.mem_cons_self _ _)]
        rw [save_db_spec hwf acc.2 s2 s2 d2, if_pos rfl]
      · rw [if_neg h1, if_neg (fun hm => (List.mem_cons.mp hm).elim h0 h1)]
        rw [save_db_spec hwf acc.2 s0 s2 d2, if_neg h0]

/-! ### Absorption of a clock it already joined -/

theorem join_inner_absorb [DecidableEq D] {dm : List (D × Nat)}
    (hnd : (akeys dm).Nodup) (x : List (D × Nat)) :
    join_inner (join_inner x dm) dm = join_inner x dm := by
  show dm.foldl (fun acc p =>
      aupdate p.1 (fun old => match old with | some c => max c p.2 | none => p.2) acc)
    (join_inner x dm) = join_inner x dm
  apply foldl_fixed_at
  intro p hp
  obtain ⟨d, n⟩ := p
  have hdm : alookup d dm = some n := alookup_of_mem_nodup hp hnd
  have hJ := alookup_join_inner x dm hnd d
  rw [hdm] at hJ
  cases hx : alookup d x with
  | some a =>
    rw [hx] at hJ
    refine aupdate_id hJ ?_
    show max (max a n) n = max a n
    rw [max_assoc, max_self]
  | none =>
    rw [hx] at hJ
    refine aupdate_id hJ ?_
    show max n n = n
    exact max_self n

theorem alookup_join_clocks [DecidableEq S] [DecidableEq D] :
    ∀ (c2 : Clock S D), wf_clock c2 → ∀ (c1 : Clock S D) (s : S),
    alookup s (join_clocks c1 c2)
      = match alookup s c2 with
        | some dm => some (join_inner ((alookup s c1).getD []) dm)
        | none => alookup s c1 := by
  intro c2
  induction c2 with
  | nil => intro _ c1 s; rfl
  | cons p rest ih =>
    intro hw c1 s
    obtain ⟨hnd, hin⟩ := hw
    obtain ⟨s1, dm1⟩ := p
    rw [join_clocks_cons]
    have hndr : s1 ∉ akeys rest ∧ (akeys rest).Nodup := by
      rw [show akeys ((s1, dm1) :: rest) = s1 :: akeys rest from rfl] at hnd
      exact List.nodup_cons.mp hnd
    rw [ih ⟨hndr.2, fun q hq => hin q (List.mem_cons_of_mem _ hq)⟩ _ s]
    by_cases hs : s = s1
    · subst hs
      have h2 : alookup s rest = none := (alookup_eq_none_iff s rest).mpr hndr.1
      rw [h2]
      show alookup s (aupdate s (fun old => join_inner (old.getD []) dm1) c1)
          = match alookup s ((s, dm1) :: rest) with
            | some dm => some (join_inner ((alookup s c1).getD []) dm)
            | none => alookup s c1
      rw [alookup_aupdate_self]
      have h3 : alookup s ((s, dm1) :: rest) = some dm1 := by simp [alookup]
      rw [h3]
    · have h3 : alookup s ((s1, dm1) :: rest) = alookup s rest := by simp [alookup, hs]
      rw [h3, alookup_aupdate_ne _ _ hs]

theorem join_clocks_absorb [DecidableEq S] [DecidableEq D]
    {f : Clock S D} (hw : wf_clock f) (c : Clock S D) :
    join_clocks (join_clocks c f) f = join_clocks c f := by
  show f.foldl (fun result p =>
      aupdate p.1 (fun old => join_inner (old.getD []) p.2) result)
    (join_clocks c f) = join_clocks c f
  refine foldl_fixed_at ?_
  intro p hp
  obtain ⟨s, dm⟩ := p
  have hsf : alookup s f = some dm := alookup_of_mem_nodup hp hw.1
  have hJ := alookup_join_clocks f hw c s
  rw [hsf] at hJ
  refine aupdate_id hJ ?_
  show join_inner (join_inner ((alookup s c).getD []) dm) dm
      = join_inner ((alookup s c).getD []) dm
  exact join_inner_absorb (hw.2 (s, dm) hp) _

theorem synced_clock_of_update [DecidableEq S] [DecidableEq D]
    (st : EventStore S D E) (c : Clock S D) (hw : wf_clock c) :
    (match alookup SyncTarget.Opfs (st.update_sync_clock SyncTarget.Opfs c).sync_states with
     | some e => join_clocks e.remote_clock c = e.remote_clock
     | none => False) := by
  show (match alookup SyncTarget.Opfs
      (aupdate SyncTarget.Opfs (fun old =>
        { old.getD SyncState.default with
          remote_clock := join_clocks (old.getD SyncState.default).remote_clock c })
        st.sync_states) with
    | some e => join_clocks e.remote_clock c = e.remote_clock
    | none => False)
  rw [alookup_aupdate_self]
  show join_clocks (join_clocks ((alookup SyncTarget.Opfs st.sync_states).getD
      SyncState.default).remote_clock c) c
    = join_clocks ((alookup SyncTarget.Opfs st.sync_states).getD
      SyncState.default).remote_clock c
  exact join_clocks_absorb hw _

/-! ### A sync from a synced state is the identity -/

theorem sync_inner_eq [DecidableEq S] [DecidableEq D]
    (st : EventStore S D E) (db : Db S D E) (m : Option ListenerKey) :
    sync_with_indexeddb_inner st db none m
      = (((akeys (db.get_clock none)).foldl (fun acc s => load_from_indexeddb acc db s m) st).update_sync_clock SyncTarget.Opfs (((akeys ((akeys (db.get_clock none)).foldl (fun acc s => load_from_indexeddb acc db s m) st).streams).foldl (fun acc s =>
          let r := save_to_indexeddb ((akeys (db.get_clock none)).foldl (fun acc s => load_from_indexeddb acc db s m) st) acc.2 s
          (acc.1 + r.1, r.2)) ((0 : Nat), db)).2.get_clock none),
         ((akeys ((akeys (db.get_clock none)).foldl (fun acc s => load_from_indexeddb acc db s m) st).streams).foldl (fun acc s =>
          let r := save_to_indexeddb ((akeys (db.get_clock none)).foldl (fun acc s => load_from_indexeddb acc db s m) st) acc.2 s
          (acc.1 + r.1, r.2)) ((0 : Nat), db)).2, ((akeys ((akeys (db.get_clock none)).foldl (fun acc s => load_from_indexeddb acc db s m) st).streams).foldl (fun acc s =>
          let r := save_to_indexeddb ((akeys (db.get_clock none)).foldl (fun acc s => load_from_indexeddb acc db s m) st) acc.2 s
          (acc.1 + r.1, r.2)) ((0 : Nat), db)).1) := rfl

theorem sync_inner_of_synced [DecidableEq S] [DecidableEq D]
    {st : EventStore S D E} {db : Db S D E} (hs : synced st db) (m : Option ListenerKey) :
    sync_with_indexeddb_inner st db none m = (st, db, 0) := by
  obtain ⟨hwf, hdb, hcount, hclock⟩ := hs
  have hpresent : ∀ s : S, s ∈ db_streams db → (alookup s st.streams).isSome = true := by
    intro s hsm
    rcases dbEvents_ne_nil_of_mem_streams hsm with ⟨d, hdne⟩
    have hlen : (st.eventsOf s d).length ≠ 0 := by
      intro h0
      have h1 : (dbEvents db s d).length = 0 := by
        show db_count db s d = 0
        rw [hcount s d, h0]
      exact hdne (List.length_eq_zero.mp h1)
    have hne : st.eventsOf s d ≠ [] := by
      intro hnil
      apply hlen
      rw [hnil]
      rfl
    exact eventsOf_ne_nil_isSome hne
  have hload : ∀ s ∈ akeys (db.get_clock none),
      (fun acc s2 => load_from_indexeddb acc db s2 m) st s = st := by
    intro s hsm
    rw [akeys_get_clock_none] at hsm
    show load_from_indexeddb st db s m = st
    rw [load_eq_foldl]
    refine foldl_fixed_at ?_
    intro p hp
    rcases List.mem_map.mp hp with ⟨d, hd2, hpd⟩
    rw [← hpd]
    have hcur : load_step s m st (d, dbEvents db s d)
        = (st.add_device_events s d
            ((dbEvents db s d).filter (fun e =>
              decide ((st.eventsOf s d).length ≤ e.within_device_events_index))) m).2 := by
      show (st.add_device_events s d
            ((dbEvents db s d).filter (fun e =>
              decide ((match alookup s st.streams with
                       | some tr => tr.store.len_device d
                       | none => 0) ≤ e.within_device_events_index))) m).2 = _
      rw [load_len_eq]
    rw [hcur]
    have hfresh : (dbEvents db s d).filter (fun e =>
          decide ((st.eventsOf s d).length ≤ e.within_device_events_index)) = [] := by
      rw [indexed_from_filter_drop (hdb s d), Nat.sub_zero, ← hcount s d]
      exact List.drop_length _
    rw [hfresh, (add_device_events_spec st s d [] m).2.2.2.1 rfl]
    exact goi_present (hpresent s hsm)
  have hload_all : (akeys (db.get_clock none)).foldl
      (fun acc s2 => load_from_indexeddb acc db s2 m) st = st := foldl_fixed_at hload
  have hsave : ∀ s ∈ akeys st.streams, save_to_indexeddb st db s = ((0 : Nat), db) := by
    intro s hsm
    rcases Option.isSome_iff_exists.mp ((alookup_isSome_iff s st.streams).mpr hsm)
      with ⟨tr, htr⟩
    rw [save_eq_foldl, alookup_vector_clock, htr]
    show tr.store.num_events_per_device.foldl
        (save_step st s ((alookup s (db.get_clock (some s))).getD []))
        ((0 : Nat), db) = ((0 : Nat), db)
    refine foldl_fixed_at ?_
    intro p _
    have hwr : events_to_write_def st s p.1
        ((alookup p.1 ((alookup s (db.get_clock (some s))).getD [])).getD 0) = [] := by
      rw [events_to_write_eq, clock_some_count db s p.1,
          indexed_from_filter_drop (eventsOf_indexed hwf s p.1), Nat.sub_zero,
          hcount s p.1]
      exact List.drop_length _
    unfold save_step
    rw [hwr]
    rfl
  have hsave_all : (akeys st.streams).foldl (fun acc s =>
      let r := save_to_indexeddb st acc.2 s
      (acc.1 + r.1, r.2)) ((0 : Nat), db) = ((0 : Nat), db) := by
    refine foldl_fixed_at ?_
    intro s hsm
    show ((0 : Nat) + (save_to_indexeddb st db s).1, (save_to_indexeddb st db s).2)
        = ((0 : Nat), db)
    rw [hsave s hsm]
    rfl
  have hupd : st.update_sync_clock SyncTarget.Opfs (db.get_clock none) = st := by
    cases halk : alookup SyncTarget.Opfs st.sync_states with
    | none =>
      rw [halk] at hclock
      exact absurd hclock (fun h => h)
    | some e =>
      rw [halk] at hclock
      have hclock2 : join_clocks e.remote_clock (db.get_clock none) = e.remote_clock :=
        hclock
      unfold EventStore.update_sync_clock
      have hid : aupdate SyncTarget.Opfs
          (fun old =>
            let state := old.getD SyncState.default
            { state with
              remote_clock := join_clocks state.remote_clock (db.get_clock none) })
          st.sync_states = st.sync_states := by
        refine aupdate_id halk ?_
        show { e with remote_clock := join_clocks e.remote_clock (db.get_clock none) } = e
        rw [hclock2]
      rw [hid]
  rw [sync_inner_eq, hload_all, hsave_all]
  show (st.update_sync_clock SyncTarget.Opfs (db.get_clock none), db, 0) = (st, db, 0)
  rw [hupd]

/-! ### A sync establishes the synced state -/

theorem sync_establishes_synced [DecidableEq S] [DecidableEq D]
    {st0 : EventStore S D E} {db0 : Db S D E} (hwf : wf_event_store st0) (hdb : wf_db db0)
    (m : Option ListenerKey) :
    synced (sync_with_indexeddb_inner st0 db0 none m).1
      (sync_with_indexeddb_inner st0 db0 none m).2.1 := by
  rw [sync_inner_eq]
  set st1 := (akeys (db0.get_clock none)).foldl
    (fun acc s => load_from_indexeddb acc db0 s m) st0 with hst1
  set saved := (akeys st1.streams).foldl (fun acc s =>
      let r := save_to_indexeddb st1 acc.2 s
      (acc.1 + r.1, r.2)) ((0 : Nat), db0) with hsaved
  show synced (st1.update_sync_clock SyncTarget.Opfs (saved.2.get_clock none)) saved.2
  have hnodup : (akeys (db0.get_clock none)).Nodup := by
    rw [akeys_get_clock_none]
    exact nodup_db_streams db0
  obtain ⟨hwf1, hmem1, hout1⟩ :=
    loads_spec db0 m (akeys (db0.get_clock none)) hnodup st0 hwf hdb
  rw [← hst1] at hwf1 hmem1 hout1
  have hcnt_le : ∀ s d, db_count db0 s d ≤ (st1.eventsOf s d).length := by
    intro s d
    by_cases hsm : s ∈ akeys (db0.get_clock none)
    · rw [hmem1 s hsm d, List.length_append, List.length_drop]
      show (dbEvents db0 s d).length ≤ _
      omega
    · rw [hout1 s hsm d]
      rw [akeys_get_clock_none] at hsm
      have h3 : dbEvents db0 s d = [] := dbEvents_of_not_mem_streams hsm d
      show (dbEvents db0 s d).length ≤ _
      rw [h3]
      exact Nat.zero_le _
  have hls_mem : ∀ s, s ∈ db_streams db0 → s ∈ akeys st1.streams := by
    intro s hsm
    rcases dbEvents_ne_nil_of_mem_streams hsm with ⟨d, hdne⟩
    have h1 : 0 < (dbEvents db0 s d).length := List.length_pos.mpr hdne
    have h2 : 0 < (st1.eventsOf s d).length := by
      have hle : (dbEvents db0 s d).length ≤ (st1.eventsOf s d).length := hcnt_le s d
      omega
    have h3 : st1.eventsOf s d ≠ [] := by
      intro hnil
      rw [hnil] at h2
      exact absurd h2 (by simp)
    exact (alookup_isSome_iff s st1.streams).mp (eventsOf_ne_nil_isSome h3)
  obtain ⟨hdb1, hsv⟩ :=
    saves_db_spec hwf1 (akeys st1.streams) hwf1.1 ((0 : Nat), db0) hdb
  rw [← hsaved] at hdb1 hsv
  have hc : ∀ s d, db_count saved.2 s d = (st1.eventsOf s d).length := by
    intro s d
    by_cases hsm : s ∈ akeys st1.streams
    · have hle : (dbEvents db0 s d).length ≤ (st1.eventsOf s d).length := hcnt_le s d
      show (dbEvents saved.2 s d).length = _
      rw [hsv s d, if_pos hsm, List.length_append, List.length_drop]
      show (dbEvents db0 s d).length
          + ((st1.eventsOf s d).length - (dbEvents db0 s d).length)
          = (st1.eventsOf s d).length
      omega
    · have h1 : st1.eventsOf s d = [] := eventsOf_absent hsm d
      have h2 : s ∉ db_streams db0 := fun hmem => hsm (hls_mem s hmem)
      have h3 : dbEvents db0 s d = [] := dbEvents_of_not_mem_streams h2 d
      show (dbEvents saved.2 s d).length = _
      rw [hsv s d, if_neg hsm, h1]
      show (dbEvents db0 s d).length = ([] : List (Timestamped E)).length
      rw [h3]
  unfold synced
  exact ⟨hwf1, hdb1, fun s d => hc s d,
         synced_clock_of_update st1 (saved.2.get_clock none)
           (wf_clock_get_clock saved.2 none)⟩

/-- C4: running a full sync against the IndexedDB target twice in a row,
with no application mutation between the two runs, leaves the engine state
after the second sync equal to the state after the first sync and the
database rows equal to what they were after the first sync, and the second
sync writes zero rows.  (`mark_sync_started`/`mark_sync_finished` and error
recording live in the `sync_with_indexeddb` wrapper; the inner sync is
infallible in the embedding, which models the error-free executions the
property quantifies over.) -/
theorem sync_twice_idempotent [DecidableEq S] [DecidableEq D]
    (st0 : EventStore S D E) (db0 : Db S D E) (m1 m2 : Option ListenerKey)
    (hwf : wf_event_store st0) (hdb : wf_db db0) :
    sync_with_indexeddb_inner (sync_with_indexeddb_inner st0 db0 none m1).1
        (sync_with_indexeddb_inner st0 db0 none m1).2.1 none m2
      = ((sync_with_indexeddb_inner st0 db0 none m1).1,
         (sync_with_indexeddb_inner st0 db0 none m1).2.1, 0) :=
  sync_inner_of_synced (sync_establishes_synced hwf hdb m1) m2

/-- Witness for C4 at the empty store and empty database. -/
theorem sync_twice_idempotent_witness :
    wf_event_store (EventStore.default : EventStore Nat Nat Nat)
  ∧ wf_db ([] : Db Nat Nat Nat)
  ∧ sync_with_indexeddb_inner
        (sync_with_indexeddb_inner (EventStore.default : EventStore Nat Nat Nat)
          [] none none).1
        (sync_with_indexeddb_inner (EventStore.default : EventStore Nat Nat Nat)
          [] none none).2.1 none none
      = ((sync_with_indexeddb_inner (EventStore.default : EventStore Nat Nat Nat)
          [] none none).1,
         (sync_with_indexeddb_inner (EventStore.default : EventStore Nat Nat Nat)
          [] none none).2.1, 0) := by
  have h1 : wf_event_store (EventStore.default : EventStore Nat Nat Nat) := by
    constructor
    · exact List.nodup_nil
    · intro p hp
      simp [EventStore.default] at hp
  have h2 : wf_db ([] : Db Nat Nat Nat) := by
    intro s d
    show indexed_from 0 (dbEvents [] s d)
    rw [show dbEvents ([] : Db Nat Nat Nat) s d = [] from rfl]
    trivial
  exact ⟨h1, h2, sync_twice_idempotent _ _ none none h1 h2⟩

end Weapon
